import Mathlib

/-!
Verification of the navigation core of the permafrost-engine repository
(src/src/navigation/field.c): chunk-local flow fields, integration fields
and line-of-sight (LOS) fields.

The embedding is shallow.  The dense C arrays indexed by tile coordinates
(`float integration_field[FIELD_RES_R][FIELD_RES_C]`, the flow and LOS
field grids, the BFS `visited` grid) become row-major `List (List _)`
grids; the read-only chunk data becomes total functions.  The float
integration values become `Option Nat`, `none` standing for `INFINITY`
(every finite value the code computes is an exact sum of `u8` step costs,
on which IEEE f32 arithmetic is exact, so `Nat` arithmetic coincides with
the source's float arithmetic).  The resolution constants `FIELD_RES_R` /
`FIELD_RES_C` (defined in the header `field.h`, which is not among the
sources; the specification says the engine uses 64x64) are kept as
parameters `R C`.  Loops become folds or fuel-indexed recursion; the fuel
is universally quantified in the theorems about loop results.
-/

namespace Permafrost

/-- Tile coordinate, `struct coord` of the source (a pair of `int`s). -/
structure Coord where
  r : Int
  c : Int
deriving DecidableEq, Repr

/-- Bounds check used throughout the source:
`0 <= r < FIELD_RES_R && 0 <= c < FIELD_RES_C`. -/
def inBoundsB (R C : Int) (t : Coord) : Bool :=
  0 ≤ t.r && t.r < R && 0 ≤ t.c && t.c < C

/-! Dense row-major grids standing for the C 2D arrays. -/

abbrev Grid (α : Type) := List (List α)

/-- Array read `g[t.r][t.c]`; the source only reads in-bounds cells, the
default covers the out-of-range cases a total function must define. -/
def gridGet {α : Type} (dflt : α) (g : Grid α) (t : Coord) : α :=
  (g.getD t.r.toNat []).getD t.c.toNat dflt

/-- Array write `g[t.r][t.c] = v`; the source only writes in-bounds cells
(out-of-range writes are dropped here). -/
def gridSet {α : Type} (g : Grid α) (t : Coord) (v : α) : Grid α :=
  g.set t.r.toNat ((g.getD t.r.toNat []).set t.c.toNat v)

/-- A freshly initialized `R x C` array filled with `v`. -/
def gridInit {α : Type} (R C : Int) (v : α) : Grid α :=
  List.replicate R.toNat (List.replicate C.toNat v)

/-- Well-formedness of a grid: the dimensions of the C array type. -/
def gridWF {α : Type} (R C : Int) (g : Grid α) : Prop :=
  g.length = R.toNat ∧ ∀ i, i < R.toNat → (g.getD i []).length = C.toNat

/-- The integers `0, 1, ..., n-1`, an ascending `for` loop's index list. -/
def intRange (n : Int) : List Int :=
  (List.range n.toNat).map fun (i : Nat) => (i : Int)

/-- Row-major list of all in-bounds coordinates, the iteration space of the
source's `for (r) for (c)` loops. -/
def allCoords (R C : Int) : List Coord :=
  (intRange R).flatMap fun r => (intRange C).map fun c => ⟨r, c⟩

/-- Fold writing `f t` (when present) into every cell of `cs` in order;
the shape of the source's grid-filling loops. -/
def writeCells {α : Type} (f : Coord → Option α) (g : Grid α)
    (cs : List Coord) : Grid α :=
  cs.foldl
    (fun g t =>
      match f t with
      | none => g
      | some v => gridSet g t v)
    g

/-- The flow direction enumeration `enum flow_dir` (`FD_NONE` .. `FD_SE`). -/
inductive FlowDir where
  | NONE | NW | N | NE | W | E | SW | S | SE
deriving DecidableEq, Repr

/-- Row/column offset of each flow direction, read off the uses of the
integration field in `field_flow_dir` (e.g. `FD_N` names tile `(r-1, c)`). -/
def dirOffset : FlowDir → Int × Int
  | .NONE => (0, 0)
  | .NW   => (-1, -1)
  | .N    => (-1, 0)
  | .NE   => (-1, 1)
  | .W    => (0, -1)
  | .E    => (0, 1)
  | .SW   => (1, -1)
  | .S    => (1, 0)
  | .SE   => (1, 1)

/-- The tile a direction points to from `t`. -/
def dirTile (t : Coord) (d : FlowDir) : Coord :=
  ⟨t.r + (dirOffset d).1, t.c + (dirOffset d).2⟩

/-! Integration values: `Option Nat`, with `none` playing `INFINITY`. -/

/-- Strict float comparison `a < b` with `none = INFINITY`. -/
def oLT : Option Nat → Option Nat → Bool
  | none, _ => false
  | some _, none => true
  | some a, some b => a < b

/-- Float equality `a == b`; note `INFINITY == INFINITY` holds in C. -/
def oEq : Option Nat → Option Nat → Bool
  | none, none => true
  | some a, some b => a == b
  | _, _ => false

/-- The `MIN(a, b) = (a < b ? a : b)` macro of the source. -/
def oMin (a b : Option Nat) : Option Nat :=
  if oLT a b then a else b

/-- The impassable cost sentinel `COST_IMPASSABLE`. -/
def COST_IMPASSABLE : Nat := 255

/-- Modelled from the spec: `MAX_FACTIONS` is defined in a header outside
these sources; the specification's data model fixes it at 16. -/
def MAX_FACTIONS : Nat := 16

/-- Modelled from the spec: `FACTION_ID_NONE` is defined outside these
sources; only its distinctness from real faction ids matters, and the
customary sentinel for an `int` id is `-1`. -/
def FACTION_ID_NONE : Int := -1

/-- Portal (`struct portal`); `connected` is flattened to the only field
of the connected portal the translated code reads, its chunk coordinate. -/
structure Portal where
  chunk : Coord
  ep0 : Coord
  ep1 : Coord
  connected_chunk : Coord
deriving DecidableEq, Repr

/-- Per-chunk static navigation data (`struct nav_chunk`): base cost grid,
dynamic blocker reference counts and the per-faction occupancy bitfields,
all read-only during a pass, plus the chunk's portals. -/
structure NavChunk where
  cost_base : Coord → Nat
  blockers : Coord → Nat
  factions : Nat → Coord → Bool
  portals : List Portal

/-- `field_tile_passable`. -/
def field_tile_passable (chunk : NavChunk) (tile : Coord) : Bool :=
  if chunk.cost_base tile == COST_IMPASSABLE then false
  else if chunk.blockers tile > 0 then false
  else true

/-- `field_tile_passable_no_enemies`: a tile whose every occupying faction
is in the `enemies` bitmask short-circuits the blockers test. -/
def field_tile_passable_no_enemies (chunk : NavChunk) (tile : Coord)
    (enemies : Nat) : Bool :=
  if chunk.cost_base tile == COST_IMPASSABLE then false
  else
    let enemies_only :=
      (List.range MAX_FACTIONS).all fun i =>
        !(chunk.factions i tile) || enemies.testBit i
    if enemies_only then true
    else if chunk.blockers tile > 0 then false
    else true

/-- Faction-dependent passability dispatch appearing at each call site
(`faction_id == FACTION_ID_NONE ? field_tile_passable : ..._no_enemies`).
`getEnemies` stands for the external `G_GetEnemyFactions`. -/
def passableFor (chunk : NavChunk) (tile : Coord) (faction_id : Int)
    (getEnemies : Int → Nat) : Bool :=
  if faction_id = FACTION_ID_NONE then field_tile_passable chunk tile
  else field_tile_passable_no_enemies chunk tile (getEnemies faction_id)

/-- The four survivors of the source's 3x3 neighbour scan (both
`field_neighbours_grid` variants skip out-of-bounds cells, the centre and
the diagonals), in the source's row-major visit order. -/
def cardDeltas : List (Int × Int) := [(-1, 0), (0, -1), (0, 1), (1, 0)]

/-- `field_neighbours_grid`: in-bounds 4-neighbours of `coord` with their
step costs (`cost_base`, overridden to `COST_IMPASSABLE` on any blockers);
with `only_passable` set, impassable neighbours are dropped. -/
def field_neighbours_grid (R C : Int) (chunk : NavChunk) (coord : Coord)
    (only_passable : Bool) (faction_id : Int) (getEnemies : Int → Nat) :
    List (Coord × Nat) :=
  cardDeltas.filterMap fun d =>
    let n : Coord := ⟨coord.r + d.1, coord.c + d.2⟩
    if !(inBoundsB R C n) then none
    else if only_passable && !(passableFor chunk n faction_id getEnemies) then none
    else some (n, if chunk.blockers n > 0 then COST_IMPASSABLE else chunk.cost_base n)

/-- Cell of a LOS field (`struct LOS_field` entries). -/
structure LOSCell where
  visible : Bool
  wavefront_blocked : Bool
deriving DecidableEq, Repr

/-- LOS field of one chunk. -/
structure LOSField where
  chunk : Coord
  field : Grid LOSCell

/-- Read of one LOS cell. -/
def losGet (los : LOSField) (t : Coord) : LOSCell :=
  gridGet ⟨false, false⟩ los.field t

/-- `field_neighbours_grid_los`: in-bounds, non-`wavefront_blocked`
4-neighbours; every neighbour is returned, with cost `cost_base`
overridden to `COST_IMPASSABLE` when the tile is not passable for the
destination's faction. -/
def field_neighbours_grid_los (R C : Int) (chunk : NavChunk) (los : LOSField)
    (faction_id : Int) (getEnemies : Int → Nat) (coord : Coord) :
    List (Coord × Nat) :=
  cardDeltas.filterMap fun d =>
    let n : Coord := ⟨coord.r + d.1, coord.c + d.2⟩
    if !(inBoundsB R C n) then none
    else if (losGet los n).wavefront_blocked then none
    else some (n, if passableFor chunk n faction_id getEnemies then
                    chunk.cost_base n
                  else COST_IMPASSABLE)

/-- One guarded `min_cost = MIN(min_cost, x)` update of `field_flow_dir`. -/
def minStep (m : Option Nat) (x : Option Nat) (cond : Bool) : Option Nat :=
  if cond then oMin m x else m

/-- The incremental minimum computed by the first half of `field_flow_dir`:
in-bounds cardinal neighbours unconditionally, diagonal neighbours only when
both cardinal tiles sharing the corner have finite integration. -/
def minCostOf (R C : Int) (intf : Grid (Option Nat)) (t : Coord) : Option Nat :=
  let iget : Coord → Option Nat := gridGet none intf
  let r := t.r
  let c := t.c
  let m : Option Nat := none
  let m := minStep m (iget ⟨r-1, c⟩) (r > 0)
  let m := minStep m (iget ⟨r+1, c⟩) (r < R - 1)
  let m := minStep m (iget ⟨r, c-1⟩) (c > 0)
  let m := minStep m (iget ⟨r, c+1⟩) (c < C - 1)
  let m := minStep m (iget ⟨r-1, c-1⟩)
    (r > 0 && c > 0 && oLT (iget ⟨r-1, c⟩) none && oLT (iget ⟨r, c-1⟩) none)
  let m := minStep m (iget ⟨r-1, c+1⟩)
    (r > 0 && c < C - 1 && oLT (iget ⟨r-1, c⟩) none && oLT (iget ⟨r, c+1⟩) none)
  let m := minStep m (iget ⟨r+1, c-1⟩)
    (r < R - 1 && c > 0 && oLT (iget ⟨r+1, c⟩) none && oLT (iget ⟨r, c-1⟩) none)
  let m := minStep m (iget ⟨r+1, c+1⟩)
    (r < R - 1 && c < C - 1 && oLT (iget ⟨r+1, c⟩) none && oLT (iget ⟨r, c+1⟩) none)
  m

/-- `field_flow_dir`: direction of a neighbour attaining the minimum,
cardinals prioritized.  The final `else` is the source's `assert(0);
return 0;` path, yielding `FD_NONE`.  Note the source bug kept here: the
`SE` arm bounds the column by `FIELD_RES_R-1` instead of `FIELD_RES_C-1`. -/
def field_flow_dir (R C : Int) (intf : Grid (Option Nat)) (t : Coord) : FlowDir :=
  let iget : Coord → Option Nat := gridGet none intf
  let m := minCostOf R C intf t
  let r := t.r
  let c := t.c
  if r > 0 && oEq (iget ⟨r-1, c⟩) m then .N
  else if r < R - 1 && oEq (iget ⟨r+1, c⟩) m then .S
  else if c < C - 1 && oEq (iget ⟨r, c+1⟩) m then .E
  else if c > 0 && oEq (iget ⟨r, c-1⟩) m then .W
  else if r > 0 && c > 0 && oEq (iget ⟨r-1, c-1⟩) m then .NW
  else if r > 0 && c < C - 1 && oEq (iget ⟨r-1, c+1⟩) m then .NE
  else if r < R - 1 && c > 0 && oEq (iget ⟨r+1, c-1⟩) m then .SW
  else if r < R - 1 && c < R - 1 && oEq (iget ⟨r+1, c+1⟩) m then .SE
  else .NONE

/-! Priority queue.  Modelled from the spec: the `pqueue.h` template behind
`pq_coord_t` is not among the sources; the spec describes a min-heap over
float priorities with a linear `contains` probe comparing coordinates only.
We model it as a list of (priority, coord) pairs from which `pop` removes
an entry of minimal priority. -/

/-- Queue entry list; priorities are integration values. -/
abbrev PQueue := List (Option Nat × Coord)

def pqPush (q : PQueue) (p : Option Nat) (t : Coord) : PQueue := q ++ [(p, t)]

/-- `pq_coord_contains` with `field_compare_tiles`: linear probe comparing
coordinates only. -/
def pqContains (q : PQueue) (t : Coord) : Bool := q.any fun e => e.2 = t

/-- Remove an entry of minimal priority (earliest among ties). -/
def pqPopMin : PQueue → Option ((Option Nat × Coord) × PQueue)
  | [] => none
  | x :: xs =>
    match pqPopMin xs with
    | none => some (x, [])
    | some (m, rest) => if !(oLT m.1 x.1) then some (x, xs) else some (m, x :: rest)

/-- State of the Dijkstra wavefront: the integration field plus frontier. -/
structure BState where
  intf : Grid (Option Nat)
  queue : PQueue

/-- Body of the relaxation loop shared by `field_build_integration` and
`field_build_integration_nonpass`: `total_cost = inout[curr] + cost`; on
improvement write it back and enqueue unless already queued. -/
def relaxNeighbour (s : BState) (curr : Coord) (nc : Coord × Nat) : BState :=
  let total := (gridGet none s.intf curr).map (· + nc.2)
  if oLT total (gridGet none s.intf nc.1) then
    { intf := gridSet s.intf nc.1 total,
      queue := if pqContains s.queue nc.1 then s.queue
               else pqPush s.queue total nc.1 }
  else s

/-- One `while` iteration of `field_build_integration`: pop, then relax all
passable in-bounds 4-neighbours. -/
def integrationStep (R C : Int) (chunk : NavChunk) (faction_id : Int)
    (getEnemies : Int → Nat) (s : BState) : Option BState :=
  match pqPopMin s.queue with
  | none => none
  | some ((_, curr), rest) =>
    let ns := field_neighbours_grid R C chunk curr true faction_id getEnemies
    some (ns.foldl (fun s nc => relaxNeighbour s curr nc) { s with queue := rest })

/-- `field_build_integration`, fuel-indexed (the C loop runs until the
frontier drains; the theorems below hold for every fuel). -/
def field_build_integration (R C : Int) (chunk : NavChunk) (faction_id : Int)
    (getEnemies : Int → Nat) : Nat → BState → BState
  | 0, s => s
  | fuel + 1, s =>
    match integrationStep R C chunk faction_id getEnemies s with
    | none => s
    | some s' => field_build_integration R C chunk faction_id getEnemies fuel s'

/-- One `while` iteration of `field_build_integration_nonpass`: neighbours
are taken without the passability filter and only impassable ones are
relaxed. -/
def integrationStepNonpass (R C : Int) (chunk : NavChunk) (faction_id : Int)
    (getEnemies : Int → Nat) (s : BState) : Option BState :=
  match pqPopMin s.queue with
  | none => none
  | some ((_, curr), rest) =>
    let ns := field_neighbours_grid R C chunk curr false faction_id getEnemies
    some (ns.foldl
      (fun s nc =>
        if field_tile_passable chunk nc.1 then s else relaxNeighbour s curr nc)
      { s with queue := rest })

/-- `field_build_integration_nonpass`, fuel-indexed. -/
def field_build_integration_nonpass (R C : Int) (chunk : NavChunk)
    (faction_id : Int) (getEnemies : Int → Nat) : Nat → BState → BState
  | 0, s => s
  | fuel + 1, s =>
    match integrationStepNonpass R C chunk faction_id getEnemies s with
    | none => s
    | some s' => field_build_integration_nonpass R C chunk faction_id getEnemies fuel s'

/-- Initial state: the field all-`INFINITY` except the seeds at 0, which
are pushed at priority 0. -/
def initBState (R C : Int) (seeds : List Coord) : BState :=
  { intf := seeds.foldl (fun g t => gridSet g t (some 0)) (gridInit R C none),
    queue := seeds.map (fun t => (some 0, t)) }

/-- `field_build_flow`: write a direction for every tile with finite
integration (`FD_NONE` at value 0), leaving `INFINITY` tiles untouched,
in the source's row-major order. -/
def field_build_flow (R C : Int) (intf : Grid (Option Nat))
    (flow0 : Grid FlowDir) : Grid FlowDir :=
  writeCells
    (fun t =>
      match gridGet none intf t with
      | none => none
      | some 0 => some FlowDir.NONE
      | some _ => some (field_flow_dir R C intf t))
    flow0 (allCoords R C)

/-- Direction written by `field_fixup_portal_edges` at integration-0 tiles:
the `if up / down / left / right` chain; `none` is the source's
`assert(0)` arm, which writes nothing in a release build. -/
def portalEdgeDir (port : Portal) : Option FlowDir :=
  let up    := port.connected_chunk.r < port.chunk.r
  let down  := port.connected_chunk.r > port.chunk.r
  let left  := port.connected_chunk.c < port.chunk.c
  let right := port.connected_chunk.c > port.chunk.c
  if up then some .N
  else if down then some .S
  else if left then some .W
  else if right then some .E
  else none

/-- `field_fixup_portal_edges`: every tile with integration 0 is redirected
across the chunk boundary toward the connected portal's chunk. -/
def field_fixup_portal_edges (R C : Int) (intf : Grid (Option Nat))
    (flow0 : Grid FlowDir) (port : Portal) : Grid FlowDir :=
  writeCells
    (fun t =>
      if oEq (gridGet none intf t) (some 0) then portalEdgeDir port else none)
    flow0 (allCoords R C)

/-- Enemies-target descriptor (`struct enemies_desc`); the float `map_pos`
member is omitted, it only feeds the external entity query. -/
structure EnemiesDesc where
  chunk : Coord
  faction_id : Int
deriving DecidableEq, Repr

/-- `struct field_target`, a tagged union. -/
inductive FieldTarget where
  | tile (t : Coord)
  | portal (p : Portal)
  | portalmask (m : Nat)
  | enemies (e : EnemiesDesc)
deriving DecidableEq, Repr

/-- Indices selected by a portal mask, ascending (`for i < num_portals`). -/
def selectedIdx (numPortals : Nat) (mask : Nat) : List Nat :=
  (List.range numPortals).filter fun i => mask.testBit i

/-- `field_fixup`: a `TARGET_PORTAL` target runs one portal fix-up; a
`TARGET_PORTALMASK` target runs one per selected portal, ascending. -/
def field_fixup (R C : Int) (target : FieldTarget) (intf : Grid (Option Nat))
    (flow0 : Grid FlowDir) (chunk : NavChunk) : Grid FlowDir :=
  match target with
  | .portal p => field_fixup_portal_edges R C intf flow0 p
  | .portalmask m =>
    (selectedIdx chunk.portals.length m).foldl
      (fun flow i =>
        match chunk.portals[i]? with
        | some p => field_fixup_portal_edges R C intf flow p
        | none => flow)
      flow0
  | _ => flow0

/-- `field_tile_initial_frontier`. -/
def field_tile_initial_frontier (tile : Coord) (chunk : NavChunk)
    (ignoreblock : Bool) (faction_id : Int) (getEnemies : Int → Nat) :
    List Coord :=
  if ignoreblock then [tile]
  else if passableFor chunk tile faction_id getEnemies then [tile]
  else []

/-- Row-major coordinates of an inclusive rectangle, as walked by the
portal frontier's double loop. -/
def rectCoords (r0 r1 c0 c1 : Int) : List Coord :=
  (intRange (r1 + 1 - r0)).flatMap fun i =>
    (intRange (c1 + 1 - c0)).map fun j => ⟨r0 + i, c0 + j⟩

/-- `field_portal_initial_frontier`: all passable tiles of the portal's
endpoint rectangle (all of them under `ignoreblock`). -/
def field_portal_initial_frontier (port : Portal) (chunk : NavChunk)
    (ignoreblock : Bool) (faction_id : Int) (getEnemies : Int → Nat) :
    List Coord :=
  (rectCoords port.ep0.r port.ep1.r port.ep0.c port.ep1.c).filter fun t =>
    ignoreblock || passableFor chunk t faction_id getEnemies

/-- `field_portalmask_initial_frontier`: concatenation of the selected
portals' frontiers, ascending. -/
def field_portalmask_initial_frontier (mask : Nat) (chunk : NavChunk)
    (ignoreblock : Bool) (faction_id : Int) (getEnemies : Int → Nat) :
    List Coord :=
  (selectedIdx chunk.portals.length mask).flatMap fun i =>
    match chunk.portals[i]? with
    | some p => field_portal_initial_frontier p chunk ignoreblock faction_id getEnemies
    | none => []

/-- Modelled from the spec: `field_enemies_initial_frontier` marks the
tiles under enemy entities found by external entity/fog/diplomacy queries
(`G_Pos_EntsInRect`, `M_Tile_AllUnderObj`, ...), none of which are among
the sources; the resulting `has_enemy` tile grid is abstracted into the
oracle `hasEnemy`, and the frontier is its row-major scan as in the
source's final loop. -/
def field_enemies_initial_frontier (R C : Int) (hasEnemy : Coord → Bool) :
    List Coord :=
  (allCoords R C).filter hasEnemy

/-- `field_initial_frontier`: dispatch over the target tag. -/
def field_initial_frontier (R C : Int) (target : FieldTarget)
    (chunk : NavChunk) (ignoreblock : Bool) (faction_id : Int)
    (getEnemies : Int → Nat) (hasEnemy : Coord → Bool) : List Coord :=
  match target with
  | .portal p => field_portal_initial_frontier p chunk ignoreblock faction_id getEnemies
  | .tile t => field_tile_initial_frontier t chunk ignoreblock faction_id getEnemies
  | .enemies _ => field_enemies_initial_frontier R C hasEnemy
  | .portalmask m => field_portalmask_initial_frontier m chunk ignoreblock faction_id getEnemies

/-- Flow field buffer (`struct flow_field`); the cached `target` member is
carried along as the source sets it. -/
structure FlowField where
  chunk : Coord
  target : Option FieldTarget
  field : Grid FlowDir

/-- Integration field computed inside `N_FlowFieldUpdate` for a given
frontier. -/
def updateIntegration (R C : Int) (chunk : NavChunk) (faction_id : Int)
    (getEnemies : Int → Nat) (fuel : Nat) (seeds : List Coord) :
    Grid (Option Nat) :=
  (field_build_integration R C chunk faction_id getEnemies fuel
    (initBState R C seeds)).intf

/-- The integration field `N_FlowFieldUpdate` builds for `target`. -/
def N_FlowFieldUpdate_intf (R C : Int) (chunk : NavChunk) (faction_id : Int)
    (getEnemies : Int → Nat) (hasEnemy : Coord → Bool) (fuel : Nat)
    (target : FieldTarget) : Grid (Option Nat) :=
  updateIntegration R C chunk faction_id getEnemies fuel
    (field_initial_frontier R C target chunk false faction_id getEnemies hasEnemy)

/-- `N_FlowFieldUpdate`: resolve the initial frontier, build the
integration field, derive the flow and run the target fix-up. -/
def N_FlowFieldUpdate (R C : Int) (chunk : NavChunk) (faction_id : Int)
    (getEnemies : Int → Nat) (hasEnemy : Coord → Bool) (fuel : Nat)
    (target : FieldTarget) (flow0 : FlowField) : FlowField :=
  let intf := N_FlowFieldUpdate_intf R C chunk faction_id getEnemies hasEnemy fuel target
  { chunk := flow0.chunk,
    target := some target,
    field := field_fixup R C target intf (field_build_flow R C intf flow0.field) chunk }

/-- State of the plain FIFO breadth-first search of
`field_passable_frontier`. -/
structure BfsState where
  visited : Grid Bool
  queue : List Coord
  out : List Coord

/-- The 4-neighbour deltas of the BFS loops, in source order. -/
def bfsDeltas : List (Int × Int) := [(0, -1), (0, 1), (-1, 0), (1, 0)]

/-- One BFS iteration of `field_passable_frontier`: a passable tile is
collected (and not expanded); an impassable one enqueues its unvisited
in-bounds 4-neighbours. -/
def passableFrontierStep (R C : Int) (chunk : NavChunk) (s : BfsState) :
    Option BfsState :=
  match s.queue with
  | [] => none
  | curr :: rest =>
    if field_tile_passable chunk curr then
      some { s with queue := rest, out := s.out ++ [curr] }
    else
      some (bfsDeltas.foldl
        (fun s d =>
          let n : Coord := ⟨curr.r + d.1, curr.c + d.2⟩
          if !(inBoundsB R C n) then s
          else if gridGet false s.visited n then s
          else { s with visited := gridSet s.visited n true, queue := s.queue ++ [n] })
        { s with queue := rest })

/-- Fuel-indexed driver of the BFS. -/
def passableFrontierRun (R C : Int) (chunk : NavChunk) : Nat → BfsState → BfsState
  | 0, s => s
  | fuel + 1, s =>
    match passableFrontierStep R C chunk s with
    | none => s
    | some s' => passableFrontierRun R C chunk fuel s'

/-- `field_passable_frontier`: all passable tiles bordering the impassable
island around `start`. -/
def field_passable_frontier (R C : Int) (chunk : NavChunk) (start : Coord)
    (fuel : Nat) : List Coord :=
  (passableFrontierRun R C chunk fuel
    { visited := gridSet (gridInit R C false) start true,
      queue := [start], out := [] }).out

/-- The integration field `N_FlowFieldUpdateToNearestPathable` builds. -/
def N_FlowFieldUpdateToNearestPathable_intf (R C : Int) (chunk : NavChunk)
    (start : Coord) (faction_id : Int) (getEnemies : Int → Nat)
    (fuelBfs fuel : Nat) : Grid (Option Nat) :=
  (field_build_integration_nonpass R C chunk faction_id getEnemies fuel
    (initBState R C (field_passable_frontier R C chunk start fuelBfs))).intf

/-- `N_FlowFieldUpdateToNearestPathable`: seed from the passable border of
the blocked island, run the nonpass integration and write directions only
at finite, nonzero tiles. -/
def N_FlowFieldUpdateToNearestPathable (R C : Int) (chunk : NavChunk)
    (start : Coord) (faction_id : Int) (getEnemies : Int → Nat)
    (fuelBfs fuel : Nat) (flow0 : FlowField) : FlowField :=
  let intf := N_FlowFieldUpdateToNearestPathable_intf R C chunk start faction_id
    getEnemies fuelBfs fuel
  { flow0 with
    field := writeCells
      (fun t =>
        match gridGet none intf t with
        | none => none
        | some 0 => none
        | some _ => some (field_flow_dir R C intf t))
      flow0.field (allCoords R C) }

/-! Line-of-sight fields. -/

/-- Global tile descriptor (`struct tile_desc`). -/
structure TileDesc where
  chunk_r : Int
  chunk_c : Int
  tile_r : Int
  tile_c : Int
deriving DecidableEq, Repr

/-- `field_is_los_corner`: a blocked/passable asymmetry across `cell` in
either axis (XOR of the two flanking tiles' blocked-ness). -/
def field_is_los_corner (R C : Int) (cell : Coord)
    (cost_field : Coord → Nat) (blockers_field : Coord → Nat) : Bool :=
  let blockedAt : Coord → Bool := fun t =>
    cost_field t == COST_IMPASSABLE || blockers_field t > 0
  (if cell.r > 0 && cell.r < R - 1 then
    blockedAt ⟨cell.r - 1, cell.c⟩ ^^ blockedAt ⟨cell.r + 1, cell.c⟩
   else false)
  ||
  (if cell.c > 0 && cell.c < C - 1 then
    blockedAt ⟨cell.r, cell.c - 1⟩ ^^ blockedAt ⟨cell.r, cell.c + 1⟩
   else false)

def setBlocked (los : LOSField) (t : Coord) : LOSField :=
  { los with field := gridSet los.field t { losGet los t with wavefront_blocked := true } }

def setVisible (los : LOSField) (t : Coord) : LOSField :=
  { los with field := gridSet los.field t { losGet los t with visible := true } }

/-- The Bresenham mark-then-step loop (`do { mark; step; } while (in
bounds)`), fuel-indexed; the walk is monotone in both axes so `2*(R+C)+4`
fuel always suffices to leave the field. -/
def bresenhamWalk (R C dx dy sx sy : Int) :
    Nat → Int → Coord → LOSField → LOSField
  | 0, _, _, los => los
  | fuel + 1, err, curr, los =>
    let los := setBlocked los curr
    let e2 := 2 * err
    let err2 := if e2 ≥ dy then err + dy else err
    let c2 := if e2 ≥ dy then curr.c + sx else curr.c
    let err3 := if e2 ≤ dx then err2 + dx else err2
    let r2 := if e2 ≤ dx then curr.r + sy else curr.r
    if 0 ≤ r2 && r2 < R && 0 ≤ c2 && c2 < C then
      bresenhamWalk R C dx dy sx sy fuel err3 ⟨r2, c2⟩ los
    else los

/-- Modelled from the spec: `field_create_wavefront_blocked_line` computes
the blocker-line slope from world-space tile centres given by
`M_Tile_Bounds` (not among the sources) and normalizes it with float
arithmetic; the spec states any integer Bresenham variant marching away
from the target is conformant.  Tile centres are equidistant, so the slope
ratio and signs are recovered from the global tile indices; world X
decreases with growing column and world Z grows with the row, reproducing
the source's sign flips (`sx = slope.x > 0 ? 1 : -1`,
`sy = slope.z < 0 ? 1 : -1`). -/
def field_create_wavefront_blocked_line (R C : Int) (target corner : TileDesc)
    (out_los : LOSField) : LOSField :=
  let tGr := target.chunk_r * R + target.tile_r
  let tGc := target.chunk_c * C + target.tile_c
  let cGr := corner.chunk_r * R + corner.tile_r
  let cGc := corner.chunk_c * C + corner.tile_c
  let dx := ((tGc - cGc).natAbs : Int)
  let dy := -((tGr - cGr).natAbs : Int)
  let sx : Int := if tGc < cGc then 1 else -1
  let sy : Int := if tGr < cGr then 1 else -1
  bresenhamWalk R C dx dy sx sy (2 * (R + C)).toNat.succ.succ.succ.succ
    (dx + dy) ⟨corner.tile_r, corner.tile_c⟩ out_los

/-- The in-bounds 3x3 clearing loop body of `field_pad_wavefront`. -/
def padOne (R C : Int) (los : LOSField) (t : Coord) : LOSField :=
  if (losGet los t).wavefront_blocked then
    ([(-1, -1), (-1, 0), (-1, 1), (0, -1), (0, 0), (0, 1), (1, -1), (1, 0), (1, 1)]
      : List (Int × Int)).foldl
      (fun los d =>
        let x : Coord := ⟨t.r + d.1, t.c + d.2⟩
        if inBoundsB R C x then
          { los with field := gridSet los.field x { losGet los x with visible := false } }
        else los)
      los
  else los

/-- `field_pad_wavefront`: the row-major pass over all cells clearing
`visible` around every `wavefront_blocked` cell. -/
def field_pad_wavefront (R C : Int) (los : LOSField) : LOSField :=
  (allCoords R C).foldl (padOne R C) los

/-- State of the LOS wavefront. -/
structure LOSState where
  los : LOSField
  intf : Grid (Option Nat)
  queue : PQueue

/-- Body of the neighbour loop of `N_LOSFieldCreate`'s wavefront: cost
above 1 takes the blocked branch (shadow line when the neighbour is a LOS
corner, nothing else); otherwise the neighbour is marked visible, relaxed,
and enqueued on improvement. -/
def losProcessNeighbour (R C : Int) (chunk : NavChunk) (target : TileDesc)
    (chunk_coord : Coord) (s : LOSState) (curr : Coord) (nc : Coord × Nat) :
    LOSState :=
  if nc.2 > 1 then
    if field_is_los_corner R C nc.1 chunk.cost_base chunk.blockers then
      { s with los := (field_create_wavefront_blocked_line R C target
          ⟨chunk_coord.r, chunk_coord.c, nc.1.r, nc.1.c⟩ s.los) }
    else s
  else
    let new_cost := (gridGet none s.intf curr).map (· + 1)
    let los := setVisible s.los nc.1
    if oLT new_cost (gridGet none s.intf nc.1) then
      { los := los,
        intf := gridSet s.intf nc.1 new_cost,
        queue := if pqContains s.queue nc.1 then s.queue
                 else pqPush s.queue new_cost nc.1 }
    else { s with los := los }

/-- One `while` iteration of the LOS wavefront. -/
def losStep (R C : Int) (chunk : NavChunk) (faction_id : Int)
    (getEnemies : Int → Nat) (target : TileDesc) (chunk_coord : Coord)
    (s : LOSState) : Option LOSState :=
  match pqPopMin s.queue with
  | none => none
  | some ((_, curr), rest) =>
    let ns := field_neighbours_grid_los R C chunk s.los faction_id getEnemies curr
    some (ns.foldl
      (fun s nc => losProcessNeighbour R C chunk target chunk_coord s curr nc)
      { s with queue := rest })

/-- Fuel-indexed driver of the LOS wavefront. -/
def losRun (R C : Int) (chunk : NavChunk) (faction_id : Int)
    (getEnemies : Int → Nat) (target : TileDesc) (chunk_coord : Coord) :
    Nat → LOSState → LOSState
  | 0, s => s
  | fuel + 1, s =>
    match losStep R C chunk faction_id getEnemies target chunk_coord s with
    | none => s
    | some s' => losRun R C chunk faction_id getEnemies target chunk_coord fuel s'

/-- Edge carry-over of Case 2 of `N_LOSFieldCreate`: copy one shared-edge
cell from the predecessor, redraw the shadow line from carried
`wavefront_blocked` cells and seed carried `visible` cells at 0. -/
def losCarryCell (R C : Int) (target : TileDesc) (chunk_coord : Coord)
    (cell : LOSCell) (at_ : Coord) (s : LOSState) : LOSState :=
  let s := { s with los := { s.los with field := gridSet s.los.field at_ cell } }
  let s :=
    if cell.wavefront_blocked then
      { s with los := (field_create_wavefront_blocked_line R C target
          ⟨chunk_coord.r, chunk_coord.c, at_.r, at_.c⟩ s.los) }
    else s
  if cell.visible then
    { s with intf := gridSet s.intf at_ (some 0), queue := pqPush s.queue (some 0) at_ }
  else s

/-- Seeding of `N_LOSFieldCreate`: Case 1 (destination chunk) seeds the
target tile; Case 2 copies the shared edge with the predecessor chunk.
The two `assert` paths of the source (a destination chunk never has a
predecessor; a Case-2 predecessor never has equal chunk coordinates)
perform no seeding here. -/
def losSeedState (R C : Int) (chunk_coord : Coord) (target : TileDesc)
    (prev_los : Option LOSField) (s0 : LOSState) : LOSState :=
  if chunk_coord.r = target.chunk_r && chunk_coord.c = target.chunk_c then
    let t : Coord := ⟨target.tile_r, target.tile_c⟩
    { s0 with intf := gridSet s0.intf t (some 0), queue := pqPush s0.queue (some 0) t }
  else
    match prev_los with
    | none => s0
    | some prev =>
      if prev.chunk.r < chunk_coord.r then
        (List.range C.toNat).foldl
          (fun s j => losCarryCell R C target chunk_coord
            (gridGet ⟨false, false⟩ prev.field ⟨R - 1, (j : Int)⟩) ⟨0, (j : Int)⟩ s) s0
      else if prev.chunk.r > chunk_coord.r then
        (List.range C.toNat).foldl
          (fun s j => losCarryCell R C target chunk_coord
            (gridGet ⟨false, false⟩ prev.field ⟨0, (j : Int)⟩) ⟨R - 1, (j : Int)⟩ s) s0
      else if prev.chunk.c < chunk_coord.c then
        (List.range R.toNat).foldl
          (fun s i => losCarryCell R C target chunk_coord
            (gridGet ⟨false, false⟩ prev.field ⟨(i : Int), C - 1⟩) ⟨(i : Int), 0⟩ s) s0
      else if prev.chunk.c > chunk_coord.c then
        (List.range R.toNat).foldl
          (fun s i => losCarryCell R C target chunk_coord
            (gridGet ⟨false, false⟩ prev.field ⟨(i : Int), 0⟩) ⟨(i : Int), C - 1⟩ s) s0
      else s0

/-- `N_LOSFieldCreate`: zeroed LOS buffer, seeding per case, the wavefront
expansion, and the final conservative padding pass.  The faction comes from
the destination id (`N_DestFactionID`), passed here directly. -/
def N_LOSFieldCreate (R C : Int) (chunk : NavChunk) (faction_id : Int)
    (getEnemies : Int → Nat) (chunk_coord : Coord) (target : TileDesc)
    (prev_los : Option LOSField) (fuel : Nat) : LOSField :=
  let s0 : LOSState :=
    { los := { chunk := chunk_coord, field := gridInit R C ⟨false, false⟩ },
      intf := gridInit R C none,
      queue := [] }
  let s := losSeedState R C chunk_coord target prev_los s0
  let s := losRun R C chunk faction_id getEnemies target chunk_coord fuel s
  field_pad_wavefront R C s.los

/-! Flow-field identities. -/

/-- Modelled from the spec: the numeric values of the `field_target` type
tags live in the missing header; the spec's data model lists the variants
in the order TILE, PORTAL, PORTAL_MASK, ENEMIES, so they are numbered in
that order (only distinctness below 16 matters). -/
def targetTypeTag : FieldTarget → Nat
  | .tile _ => 0
  | .portal _ => 1
  | .portalmask _ => 2
  | .enemies _ => 3

/-- The `(uint64_t)` cast applied to each composed field. -/
def castU64 (v : Int) : Nat := (v % (2 ^ 64 : Nat)).toNat

/-- `N_FlowField_ID`: 64-bit identity composed from layer, target tag,
per-type payload and chunk coordinate.  A `TARGET_PORTALMASK` target falls
into the source's `assert(0); return 0;` arm. -/
def N_FlowField_ID (chunk : Coord) (target : FieldTarget) (layer : Nat) : Nat :=
  match target with
  | .portal p =>
    (layer <<< 60) ||| (targetTypeTag target <<< 56) |||
    (castU64 p.ep0.r <<< 40) ||| (castU64 p.ep0.c <<< 32) |||
    (castU64 p.ep1.r <<< 24) ||| (castU64 p.ep1.c <<< 16) |||
    (castU64 chunk.r <<< 8) ||| castU64 chunk.c
  | .tile t =>
    (layer <<< 60) ||| (targetTypeTag target <<< 56) |||
    (castU64 t.r <<< 24) ||| (castU64 t.c <<< 16) |||
    (castU64 chunk.r <<< 8) ||| castU64 chunk.c
  | .enemies e =>
    (layer <<< 60) ||| (targetTypeTag target <<< 56) |||
    (castU64 e.faction_id <<< 24) |||
    (castU64 chunk.r <<< 8) ||| castU64 chunk.c
  | .portalmask _ => 0

/-! Definitions supporting the claim statements: the cardinal
neighbourhood, the spec's wording of passability, the encoded portion of a
target, admissible flow-direction candidates, and the concrete instances
the counterexamples and witnesses run on. -/

/-- The four cardinal neighbour tiles of `t`. -/
def cardNeighbours (t : Coord) : List Coord :=
  cardDeltas.map fun d => ⟨t.r + d.1, t.c + d.2⟩

/-- The passability predicate as the specification words it: passable iff
`cost_base != IMPASSABLE` and `blockers == 0`, except that with a real
faction id a tile that is occupied, and occupied only by enemy factions,
is passable regardless of blockers.  This is the claim's reading, written
from the spec's words for comparison against the code. -/
def claimedPassable (chunk : NavChunk) (tile : Coord) (faction_id : Int)
    (getEnemies : Int → Nat) : Bool :=
  let enemies := getEnemies faction_id
  let occupied := (List.range MAX_FACTIONS).any fun i => chunk.factions i tile
  let onlyEnemies := (List.range MAX_FACTIONS).all fun i =>
    !(chunk.factions i tile) || enemies.testBit i
  if faction_id = FACTION_ID_NONE then
    !(chunk.cost_base tile == COST_IMPASSABLE) && chunk.blockers tile == 0
  else
    !(chunk.cost_base tile == COST_IMPASSABLE)
      && (chunk.blockers tile == 0 || (occupied && onlyEnemies))

/-- The components of a target that `N_FlowField_ID` encodes: the tile
coordinate of a TILE target, the endpoints of a PORTAL target, the faction
id of an ENEMIES target.  PORTAL_MASK encodes nothing. -/
def sameEncodedTarget : FieldTarget → FieldTarget → Prop
  | .tile a, .tile b => a = b
  | .portal p, .portal q => p.ep0 = q.ep0 ∧ p.ep1 = q.ep1
  | .enemies a, .enemies b => a.faction_id = b.faction_id
  | .portalmask a, .portalmask b => a = b
  | _, _ => False

/-- Some neighbour admissible to the `field_flow_dir` scan (a cardinal
in-bounds tile, or a diagonal whose two flanking cardinals are finite)
holds integration value `w`. -/
def admissibleAttains (R C : Int) (intf : Grid (Option Nat)) (t : Coord)
    (w : Nat) : Prop :=
  let iget : Coord → Option Nat := gridGet none intf
  let r := t.r
  let c := t.c
  (r > 0 ∧ iget ⟨r-1, c⟩ = some w)
  ∨ (r < R - 1 ∧ iget ⟨r+1, c⟩ = some w)
  ∨ (c > 0 ∧ iget ⟨r, c-1⟩ = some w)
  ∨ (c < C - 1 ∧ iget ⟨r, c+1⟩ = some w)
  ∨ (r > 0 ∧ c > 0 ∧ iget ⟨r-1, c⟩ ≠ none ∧ iget ⟨r, c-1⟩ ≠ none
      ∧ iget ⟨r-1, c-1⟩ = some w)
  ∨ (r > 0 ∧ c < C - 1 ∧ iget ⟨r-1, c⟩ ≠ none ∧ iget ⟨r, c+1⟩ ≠ none
      ∧ iget ⟨r-1, c+1⟩ = some w)
  ∨ (r < R - 1 ∧ c > 0 ∧ iget ⟨r+1, c⟩ ≠ none ∧ iget ⟨r, c-1⟩ ≠ none
      ∧ iget ⟨r+1, c-1⟩ = some w)
  ∨ (r < R - 1 ∧ c < C - 1 ∧ iget ⟨r+1, c⟩ ≠ none ∧ iget ⟨r, c+1⟩ ≠ none
      ∧ iget ⟨r+1, c+1⟩ = some w)

/-- Whether a direction is one of the four diagonals. -/
def isDiagonal : FlowDir → Bool
  | .NW | .NE | .SW | .SE => true
  | _ => false

/-- Every queued coordinate is in bounds. -/
def queueInBounds (R C : Int) (q : PQueue) : Prop :=
  ∀ e ∈ q, inBoundsB R C e.2 = true

/-- Strict-descent invariant of the integration wavefront: every finite,
strictly positive in-bounds cell has some in-bounds cardinal neighbour with
a strictly smaller (hence finite) value. -/
def descentInv (R C : Int) (intf : Grid (Option Nat)) : Prop :=
  ∀ t v, inBoundsB R C t = true → gridGet none intf t = some v → 0 < v →
    ∃ m vm, m ∈ cardNeighbours t ∧ inBoundsB R C m = true ∧
      gridGet none intf m = some vm ∧ vm < v

/-- Bundle of the wavefront invariants. -/
def BInv (R C : Int) (s : BState) : Prop :=
  gridWF R C s.intf ∧ queueInBounds R C s.queue ∧ descentInv R C s.intf

/-! Concrete instances for counterexamples and witnesses. -/

/-- 8x8 chunk, cost 1 everywhere except cost 3 at (4,3) and an impassable
tile at (3,4); no blockers, no factions. -/
def chunkDiagCE : NavChunk :=
  { cost_base := fun t => if t = ⟨3, 4⟩ then 255 else if t = ⟨4, 3⟩ then 3 else 1,
    blockers := fun _ => 0,
    factions := fun _ _ => false,
    portals := [] }

/-- Integration field of `N_FlowFieldUpdate` on `chunkDiagCE` with a TILE
target at (4,2) and no faction. -/
def intfDiagCE : Grid (Option Nat) :=
  N_FlowFieldUpdate_intf 8 8 chunkDiagCE FACTION_ID_NONE (fun _ => 0)
    (fun _ => false) 300 (.tile ⟨4, 2⟩)

/-- 8x8 chunk with cost 1 everywhere, nothing blocked. -/
def chunkOpen8 : NavChunk :=
  { cost_base := fun _ => 1, blockers := fun _ => 0,
    factions := fun _ _ => false, portals := [] }

/-- The LOS field of scenario C6: destination chunk, target tile (7,7). -/
def losOpen8 : LOSField :=
  N_LOSFieldCreate 8 8 chunkOpen8 FACTION_ID_NONE (fun _ => 0) ⟨0, 0⟩
    ⟨0, 0, 7, 7⟩ none 600

/-- 8x8 chunk with cost 1 everywhere except cost 2 at (0,1); no blockers. -/
def chunkCost2 : NavChunk :=
  { cost_base := fun t => if t = ⟨0, 1⟩ then 2 else 1, blockers := fun _ => 0,
    factions := fun _ _ => false, portals := [] }

/-- LOS field on `chunkCost2` from target tile (0,0). -/
def losCost2 : LOSField :=
  N_LOSFieldCreate 8 8 chunkCost2 FACTION_ID_NONE (fun _ => 0) ⟨0, 0⟩
    ⟨0, 0, 0, 0⟩ none 600

/-- A portal on the north edge of chunk (1,1) connected to the chunk above. -/
def portalNorth : Portal :=
  { chunk := ⟨1, 1⟩, ep0 := ⟨0, 3⟩, ep1 := ⟨0, 5⟩, connected_chunk := ⟨0, 1⟩ }

/-- A portal on the east edge of chunk (1,1) connected to the chunk to the
right. -/
def portalEast : Portal :=
  { chunk := ⟨1, 1⟩, ep0 := ⟨3, 7⟩, ep1 := ⟨5, 7⟩, connected_chunk := ⟨1, 2⟩ }

/-- 8x8 open chunk holding the two portals above. -/
def chunkTwoPortals : NavChunk :=
  { cost_base := fun _ => 1, blockers := fun _ => 0,
    factions := fun _ _ => false, portals := [portalNorth, portalEast] }

/-- Flow field of `N_FlowFieldUpdate` on `chunkTwoPortals` with the mask
selecting both portals, starting from an initialized buffer. -/
def flowTwoPortals : FlowField :=
  N_FlowFieldUpdate 8 8 chunkTwoPortals FACTION_ID_NONE (fun _ => 0)
    (fun _ => false) 300 (.portalmask 3)
    { chunk := ⟨1, 1⟩, target := none, field := gridInit 8 8 .NONE }

/-- 4x4 chunk with impassable tiles at (1,1) and (2,1). -/
def chunkCornerW : NavChunk :=
  { cost_base := fun t => if t = ⟨1, 1⟩ ∨ t = ⟨2, 1⟩ then 255 else 1,
    blockers := fun _ => 0, factions := fun _ _ => false, portals := [] }

/-- LOS field on `chunkCornerW` from target tile (0,0); its shadow lines
leave `wavefront_blocked` marks, exercising the padding pass. -/
def losCornerW : LOSField :=
  N_LOSFieldCreate 4 4 chunkCornerW FACTION_ID_NONE (fun _ => 0) ⟨0, 0⟩
    ⟨0, 0, 0, 0⟩ none 200

/-- 3x3 chunk with cost 1 everywhere, nothing blocked. -/
def chunkOpen3 : NavChunk :=
  { cost_base := fun _ => 1, blockers := fun _ => 0,
    factions := fun _ _ => false, portals := [] }

/-- Integration field of `N_FlowFieldUpdate` on `chunkOpen3` with a TILE
target at (0,0). -/
def intfOpen3 : Grid (Option Nat) :=
  N_FlowFieldUpdate_intf 3 3 chunkOpen3 FACTION_ID_NONE (fun _ => 0)
    (fun _ => false) 60 (.tile ⟨0, 0⟩)

/-- 3x3 chunk with cost 1 everywhere except an impassable tile at (1,1). -/
def chunkSingleBlock3 : NavChunk :=
  { cost_base := fun t => if t = ⟨1, 1⟩ then 255 else 1,
    blockers := fun _ => 0, factions := fun _ _ => false, portals := [] }

/-- 3x3 chunk with every tile impassable. -/
def chunkBlocked3 : NavChunk :=
  { cost_base := fun _ => 255, blockers := fun _ => 0,
    factions := fun _ _ => false, portals := [] }

/-- 4x4 chunk whose tile (1,1) has a blocker but no faction occupancy. -/
def chunkBlockerNoFaction : NavChunk :=
  { cost_base := fun _ => 1,
    blockers := fun t => if t = ⟨1, 1⟩ then 1 else 0,
    factions := fun _ _ => false, portals := [] }

/-- Value ranges of `N_FlowField_ID`'s inputs in the engine: the layer
enum is below 16 (4 bits), chunk/tile/endpoint coordinates are unsigned
8-bit quantities and the faction id an unsigned 32-bit one, so each field
stays inside its slot of the 64-bit identity. -/
def idInputBounds (chunk : Coord) (target : FieldTarget) (layer : Nat) : Prop :=
  layer < 16 ∧ 0 ≤ chunk.r ∧ chunk.r < 256 ∧ 0 ≤ chunk.c ∧ chunk.c < 256 ∧
  match target with
  | .tile t => 0 ≤ t.r ∧ t.r < 256 ∧ 0 ≤ t.c ∧ t.c < 256
  | .portal p => 0 ≤ p.ep0.r ∧ p.ep0.r < 256 ∧ 0 ≤ p.ep0.c ∧ p.ep0.c < 256 ∧
                 0 ≤ p.ep1.r ∧ p.ep1.r < 256 ∧ 0 ≤ p.ep1.c ∧ p.ep1.c < 256
  | .portalmask _ => True
  | .enemies e => 0 ≤ e.faction_id ∧ e.faction_id < 2 ^ 32

/-- A zeroed LOS wavefront state over an 8x8 chunk. -/
def losState0 : LOSState :=
  { los := { chunk := ⟨0, 0⟩, field := gridInit 8 8 ⟨false, false⟩ },
    intf := gridInit 8 8 none,
    queue := [] }

/-- A 3x3 flow buffer holding `SE` at (1,1) and `NONE` elsewhere. -/
def flowBufSE3 : FlowField :=
  { chunk := ⟨0, 0⟩, target := none,
    field := gridSet (gridInit 3 3 FlowDir.NONE) ⟨1, 1⟩ FlowDir.SE }

/-- Flow field of `N_FlowFieldUpdate` on `chunkTwoPortals` with the single
north portal as the target. -/
def flowPortalNorth : FlowField :=
  N_FlowFieldUpdate 8 8 chunkTwoPortals FACTION_ID_NONE (fun _ => 0)
    (fun _ => false) 300 (.portal portalNorth)
    { chunk := ⟨1, 1⟩, target := none, field := gridInit 8 8 .NONE }

/-- The nine offsets of the 3x3 padding loop of `field_pad_wavefront`,
in its row-major visit order. -/
def padDeltas9 : List (Int × Int) :=
  [(-1, -1), (-1, 0), (-1, 1), (0, -1), (0, 0), (0, 1), (1, -1), (1, 0), (1, 1)]

/-- One inner iteration of `field_pad_wavefront`'s clearing loop: the
in-bounds cell at offset `d` from `t` loses its `visible` flag. -/
def padStep (R C : Int) (t : Coord) (los : LOSField) (d : Int × Int) : LOSField :=
  let x : Coord := ⟨t.r + d.1, t.c + d.2⟩
  if inBoundsB R C x then
    { los with field := gridSet los.field x { losGet los x with visible := false } }
  else los

/-! Infrastructure lemmas about grids, bounds and the queue model. -/

theorem inBoundsB_iff {R C : Int} {t : Coord} :
    inBoundsB R C t = true ↔ 0 ≤ t.r ∧ t.r < R ∧ 0 ≤ t.c ∧ t.c < C := by
  simp [inBoundsB, Bool.and_eq_true, decide_eq_true_eq, and_assoc]

theorem mem_intRange {n x : Int} : x ∈ intRange n ↔ 0 ≤ x ∧ x < n := by
  simp only [intRange, List.mem_map, List.mem_range]
  constructor
  · rintro ⟨i, hi, rfl⟩
    omega
  · rintro ⟨h0, h1⟩
    exact ⟨x.toNat, by omega, by omega⟩

theorem mem_allCoords {R C : Int} {t : Coord} :
    t ∈ allCoords R C ↔ inBoundsB R C t = true := by
  rcases t with ⟨r, c⟩
  simp only [allCoords, List.mem_flatMap, List.mem_map, mem_intRange,
    Coord.mk.injEq, inBoundsB_iff]
  constructor
  · rintro ⟨i, hi, j, hj, hr, hc⟩
    refine ⟨by omega, by omega, by omega, by omega⟩
  · rintro ⟨h1, h2, h3, h4⟩
    exact ⟨r, ⟨h1, h2⟩, c, ⟨h3, h4⟩, rfl, rfl⟩

theorem gridWF_init {α : Type} {R C : Int} {v : α} : gridWF R C (gridInit R C v) := by
  constructor
  · simp [gridInit]
  · intro i hi
    simp [gridInit, List.getD_eq_getElem?_getD, List.getElem?_replicate, hi]

theorem gridWF_set {α : Type} {R C : Int} {g : Grid α} {t : Coord} {v : α}
    (h : gridWF R C g) : gridWF R C (gridSet g t v) := by
  obtain ⟨h1, h2⟩ := h
  refine ⟨by simp [gridSet, h1], ?_⟩
  intro i hi
  have hlen : i < g.length := by omega
  simp only [gridSet, List.getD_eq_getElem?_getD, List.getElem?_set]
  split
  · rename_i heq
    rw [if_pos (heq ▸ hlen)]
    simp only [Option.getD_some, List.length_set]
    subst heq
    simpa [List.getD_eq_getElem?_getD] using h2 _ hi
  · simpa [List.getD_eq_getElem?_getD] using h2 _ hi

theorem gridGet_init {α : Type} {R C : Int} {v d : α} {t : Coord}
    (h : inBoundsB R C t = true) : gridGet d (gridInit R C v) t = v := by
  rw [inBoundsB_iff] at h
  simp only [gridGet, gridInit, List.getD_eq_getElem?_getD, List.getElem?_replicate]
  rw [if_pos (by omega)]
  simp only [Option.getD_some]
  rw [List.getElem?_replicate, if_pos (by omega), Option.getD_some]

theorem gridGet_set_self {α : Type} {R C : Int} {g : Grid α} {t : Coord} {v d : α}
    (hw : gridWF R C g) (h : inBoundsB R C t = true) :
    gridGet d (gridSet g t v) t = v := by
  rw [inBoundsB_iff] at h
  obtain ⟨h1, h2⟩ := hw
  have hr : t.r.toNat < g.length := by omega
  have hc : t.c.toNat < (g.getD t.r.toNat []).length := by
    rw [h2 _ (by omega)]
    omega
  simp only [gridGet, gridSet, List.getD_eq_getElem?_getD]
  rw [List.getElem?_set_self (by simpa using hr), Option.getD_some,
    List.getElem?_set_self (by simpa [List.getD_eq_getElem?_getD] using hc),
    Option.getD_some]

theorem gridGet_set_ne {α : Type} {R C : Int} {g : Grid α} {t x : Coord} {v d : α}
    (hx : inBoundsB R C x = true) (ht : inBoundsB R C t = true) (hne : x ≠ t) :
    gridGet d (gridSet g t v) x = gridGet d g x := by
  rw [inBoundsB_iff] at hx ht
  simp only [gridGet, gridSet, List.getD_eq_getElem?_getD]
  by_cases hr : t.r.toNat = x.r.toNat
  · have hrr : t.r = x.r := by omega
    have hc : t.c.toNat ≠ x.c.toNat := by
      intro hcc
      have hct : t.c = x.c := by omega
      apply hne
      cases x with | mk xr xc =>
      cases t with | mk tr tc =>
      simp only [Coord.mk.injEq]
      exact ⟨hrr.symm, hct.symm⟩
    rw [List.getElem?_set, if_pos hr]
    by_cases hlen : t.r.toNat < g.length
    · rw [if_pos hlen, Option.getD_some, hr, List.getElem?_set_ne hc]
    · rw [if_neg hlen, Option.getD_none]
      have hnone : g[x.r.toNat]? = none := List.getElem?_eq_none (by omega)
      rw [hnone, Option.getD_none]
  · rw [List.getElem?_set_ne hr]

/-- Unfolding of `writeCells` over a cons. -/
theorem writeCells_cons {α : Type} (f : Coord → Option α) (g : Grid α)
    (c : Coord) (cs : List Coord) :
    writeCells f g (c :: cs) =
      writeCells f (match f c with | none => g | some v => gridSet g c v) cs := rfl

/-- Cells outside `cs` (all of whose members are in-bounds) are untouched
by `writeCells`. -/
theorem writeCells_get_not_mem {α : Type} {R C : Int} {f : Coord → Option α}
    {g : Grid α} {cs : List Coord} {t : Coord} {d : α}
    (hcs : ∀ x ∈ cs, inBoundsB R C x = true) (ht : inBoundsB R C t = true)
    (hmem : t ∉ cs) :
    gridGet d (writeCells f g cs) t = gridGet d g t := by
  induction cs generalizing g with
  | nil => rfl
  | cons c cs ih =>
    have hc : inBoundsB R C c = true := hcs c (by simp)
    have hne : t ≠ c := fun h => hmem (h ▸ List.mem_cons_self c cs)
    have hrec : ∀ g, gridGet d (writeCells f g cs) t = gridGet d g t := fun g =>
      ih (fun x hx => hcs x (List.mem_cons_of_mem _ hx)) (fun h => hmem (List.mem_cons_of_mem _ h))
    cases hfc : f c with
    | none =>
      have hstep : writeCells f g (c :: cs) = writeCells f g cs := by
        rw [writeCells_cons, hfc]
      rw [hstep]
      exact hrec g
    | some v =>
      have hstep : writeCells f g (c :: cs) = writeCells f (gridSet g c v) cs := by
        rw [writeCells_cons, hfc]
      rw [hstep, hrec (gridSet g c v)]
      exact gridGet_set_ne ht hc hne

theorem writeCells_wf {α : Type} {R C : Int} {f : Coord → Option α}
    {g : Grid α} {cs : List Coord} (hw : gridWF R C g) :
    gridWF R C (writeCells f g cs) := by
  induction cs generalizing g with
  | nil => exact hw
  | cons c cs ih =>
    cases hfc : f c with
    | none =>
      rw [show writeCells f g (c :: cs) = writeCells f g cs by rw [writeCells_cons, hfc]]
      exact ih hw
    | some v =>
      rw [show writeCells f g (c :: cs) = writeCells f (gridSet g c v) cs by
        rw [writeCells_cons, hfc]]
      exact ih (gridWF_set hw)

/-- A cell of `cs` whose payload is defined ends up holding it. -/
theorem writeCells_get_mem {α : Type} {R C : Int} {f : Coord → Option α}
    {g : Grid α} {cs : List Coord} {t : Coord} {v : α} {d : α}
    (hw : gridWF R C g) (hcs : ∀ x ∈ cs, inBoundsB R C x = true)
    (hmem : t ∈ cs) (hf : f t = some v) :
    gridGet d (writeCells f g cs) t = v := by
  induction cs generalizing g with
  | nil => cases hmem
  | cons c cs ih =>
    have hc : inBoundsB R C c = true := hcs c (by simp)
    have ht : inBoundsB R C t = true := hcs t hmem
    by_cases htc : t ∈ cs
    · cases hfc : f c with
      | none =>
        rw [show writeCells f g (c :: cs) = writeCells f g cs by rw [writeCells_cons, hfc]]
        exact ih hw (fun x hx => hcs x (List.mem_cons_of_mem _ hx)) htc
      | some w =>
        rw [show writeCells f g (c :: cs) = writeCells f (gridSet g c w) cs by
          rw [writeCells_cons, hfc]]
        exact ih (gridWF_set hw) (fun x hx => hcs x (List.mem_cons_of_mem _ hx)) htc
    · have hct : c = t := by
        rcases List.mem_cons.mp hmem with h | h
        · exact h.symm
        · exact absurd h htc
      subst hct
      rw [show writeCells f g (c :: cs) = writeCells f (gridSet g c v) cs by
        rw [writeCells_cons, hf]]
      rw [writeCells_get_not_mem (fun x hx => hcs x (List.mem_cons_of_mem _ hx)) ht htc]
      exact gridGet_set_self hw ht

/-- Cells with an undefined payload are untouched by `writeCells`. -/
theorem writeCells_get_none {α : Type} {R C : Int} {f : Coord → Option α}
    {g : Grid α} {cs : List Coord} {t : Coord} {d : α}
    (hcs : ∀ x ∈ cs, inBoundsB R C x = true) (ht : inBoundsB R C t = true)
    (hf : f t = none) :
    gridGet d (writeCells f g cs) t = gridGet d g t := by
  induction cs generalizing g with
  | nil => rfl
  | cons c cs ih =>
    have hc : inBoundsB R C c = true := hcs c (by simp)
    have hrec : ∀ g, gridGet d (writeCells f g cs) t = gridGet d g t := fun g =>
      ih (fun x hx => hcs x (List.mem_cons_of_mem _ hx))
    cases hfc : f c with
    | none =>
      rw [show writeCells f g (c :: cs) = writeCells f g cs by rw [writeCells_cons, hfc]]
      exact hrec g
    | some v =>
      rw [show writeCells f g (c :: cs) = writeCells f (gridSet g c v) cs by
        rw [writeCells_cons, hfc]]
      rw [hrec (gridSet g c v)]
      by_cases hne : t = c
      · subst hne
        rw [hfc] at hf
        cases hf
      · exact gridGet_set_ne ht hc hne

/-! Ordering facts about the INFINITY-extended values. -/

theorem oEq_iff {a b : Option Nat} : oEq a b = true ↔ a = b := by
  cases a <;> cases b <;> simp [oEq]

theorem oLT_none_iff {a : Option Nat} : oLT a none = true ↔ a ≠ none := by
  cases a <;> simp [oLT]

/-- `a` is at most `b` in the INFINITY-extended order. -/
def oLEb (a b : Option Nat) : Prop := oLT b a = false

theorem oLEb_trans {a b c : Option Nat} (h1 : oLEb a b) (h2 : oLEb b c) :
    oLEb a c := by
  cases a <;> cases b <;> cases c <;>
    simp_all [oLEb, oLT] <;> omega

theorem oLT_irrefl (a : Option Nat) : oLT a a = false := by
  cases a <;> simp [oLT]

theorem oLT_asymm {a b : Option Nat} (h : oLT a b = true) : oLT b a = false := by
  cases a <;> cases b <;> simp_all [oLT] <;> omega

theorem minStep_le (m x : Option Nat) (c : Bool) : oLEb (minStep m x c) m := by
  unfold oLEb minStep
  cases c
  · simpa using oLT_irrefl m
  · show oLT m (oMin m x) = false
    unfold oMin
    split
    · exact oLT_irrefl m
    · rename_i h
      simpa using h

theorem minStep_le_cand {c : Bool} (m x : Option Nat) (h : c = true) :
    oLEb (minStep m x c) x := by
  subst h
  unfold oLEb minStep
  show oLT x (oMin m x) = false
  unfold oMin
  split
  · rename_i h
    exact oLT_asymm h
  · exact oLT_irrefl x

theorem minStep_eq_some {m x : Option Nat} {c : Bool} {w : Nat}
    (h : minStep m x c = some w) : (c = true ∧ x = some w) ∨ m = some w := by
  rcases c with _ | _
  · right
    simpa [minStep] using h
  · rw [minStep, if_pos rfl, oMin] at h
    split at h
    · right
      exact h
    · left
      exact ⟨rfl, h⟩

theorem minStep_eq_none {m x : Option Nat} {c : Bool}
    (h : minStep m x c = none) : m = none ∧ (c = true → x = none) := by
  rcases c with _ | _
  · simpa [minStep] using h
  · rw [minStep, if_pos rfl, oMin] at h
    split at h
    · subst h
      rename_i hlt
      exact ⟨rfl, fun _ => by cases x <;> simp_all [oLT]⟩
    · subst h
      rename_i hlt
      exact ⟨by cases m <;> simp_all [oLT], fun _ => rfl⟩

/-! Facts about the neighbour minimum of `field_flow_dir`. -/

/-- The minimum is at most any in-bounds cardinal neighbour's value. -/
theorem minCostOf_le_card {R C : Int} {intf : Grid (Option Nat)} {t : Coord} :
    (0 < t.r → oLEb (minCostOf R C intf t) (gridGet none intf ⟨t.r-1, t.c⟩))
    ∧ (t.r < R - 1 → oLEb (minCostOf R C intf t) (gridGet none intf ⟨t.r+1, t.c⟩))
    ∧ (0 < t.c → oLEb (minCostOf R C intf t) (gridGet none intf ⟨t.r, t.c-1⟩))
    ∧ (t.c < C - 1 → oLEb (minCostOf R C intf t) (gridGet none intf ⟨t.r, t.c+1⟩)) := by
  refine ⟨fun h => ?_, fun h => ?_, fun h => ?_, fun h => ?_⟩ <;>
  · simp only [minCostOf]
    first
    | exact oLEb_trans (minStep_le _ _ _) (oLEb_trans (minStep_le _ _ _)
        (oLEb_trans (minStep_le _ _ _) (oLEb_trans (minStep_le _ _ _)
        (oLEb_trans (minStep_le _ _ _) (oLEb_trans (minStep_le _ _ _)
        (oLEb_trans (minStep_le _ _ _) (minStep_le_cand _ _ (by simpa using h))))))))
    | exact oLEb_trans (minStep_le _ _ _) (oLEb_trans (minStep_le _ _ _)
        (oLEb_trans (minStep_le _ _ _) (oLEb_trans (minStep_le _ _ _)
        (oLEb_trans (minStep_le _ _ _) (oLEb_trans (minStep_le _ _ _)
        (minStep_le_cand _ _ (by simpa using h)))))))
    | exact oLEb_trans (minStep_le _ _ _) (oLEb_trans (minStep_le _ _ _)
        (oLEb_trans (minStep_le _ _ _) (oLEb_trans (minStep_le _ _ _)
        (oLEb_trans (minStep_le _ _ _) (minStep_le_cand _ _ (by simpa using h))))))
    | exact oLEb_trans (minStep_le _ _ _) (oLEb_trans (minStep_le _ _ _)
        (oLEb_trans (minStep_le _ _ _) (oLEb_trans (minStep_le _ _ _)
        (minStep_le_cand _ _ (by simpa using h)))))

/-- A finite minimum is attained by an admissible neighbour. -/
theorem minCostOf_attained {R C : Int} {intf : Grid (Option Nat)} {t : Coord}
    {w : Nat} (h : minCostOf R C intf t = some w) :
    admissibleAttains R C intf t w := by
  simp only [minCostOf] at h
  rcases minStep_eq_some h with ⟨hc, hx⟩ | h
  · refine Or.inr (Or.inr (Or.inr (Or.inr (Or.inr (Or.inr (Or.inr ?_))))))
    simp only [Bool.and_eq_true, decide_eq_true_eq, oLT_none_iff] at hc
    exact ⟨hc.1.1.1, hc.1.1.2, hc.1.2, hc.2, hx⟩
  rcases minStep_eq_some h with ⟨hc, hx⟩ | h
  · refine Or.inr (Or.inr (Or.inr (Or.inr (Or.inr (Or.inr (Or.inl ?_))))))
    simp only [Bool.and_eq_true, decide_eq_true_eq, oLT_none_iff] at hc
    exact ⟨hc.1.1.1, hc.1.1.2, hc.1.2, hc.2, hx⟩
  rcases minStep_eq_some h with ⟨hc, hx⟩ | h
  · refine Or.inr (Or.inr (Or.inr (Or.inr (Or.inr (Or.inl ?_)))))
    simp only [Bool.and_eq_true, decide_eq_true_eq, oLT_none_iff] at hc
    exact ⟨hc.1.1.1, hc.1.1.2, hc.1.2, hc.2, hx⟩
  rcases minStep_eq_some h with ⟨hc, hx⟩ | h
  · refine Or.inr (Or.inr (Or.inr (Or.inr (Or.inl ?_))))
    simp only [Bool.and_eq_true, decide_eq_true_eq, oLT_none_iff] at hc
    exact ⟨hc.1.1.1, hc.1.1.2, hc.1.2, hc.2, hx⟩
  rcases minStep_eq_some h with ⟨hc, hx⟩ | h
  · exact Or.inr (Or.inr (Or.inr (Or.inl ⟨by simpa using hc, hx⟩)))
  rcases minStep_eq_some h with ⟨hc, hx⟩ | h
  · exact Or.inr (Or.inr (Or.inl ⟨by simpa using hc, hx⟩))
  rcases minStep_eq_some h with ⟨hc, hx⟩ | h
  · exact Or.inr (Or.inl ⟨by simpa using hc, hx⟩)
  rcases minStep_eq_some h with ⟨hc, hx⟩ | h
  · exact Or.inl ⟨by simpa using hc, hx⟩
  · cases h

/-- An infinite minimum forces every in-bounds cardinal neighbour to be
infinite. -/
theorem minCostOf_none {R C : Int} {intf : Grid (Option Nat)} {t : Coord}
    (h : minCostOf R C intf t = none) :
    (0 < t.r → gridGet none intf ⟨t.r-1, t.c⟩ = none)
    ∧ (t.r < R - 1 → gridGet none intf ⟨t.r+1, t.c⟩ = none)
    ∧ (0 < t.c → gridGet none intf ⟨t.r, t.c-1⟩ = none)
    ∧ (t.c < C - 1 → gridGet none intf ⟨t.r, t.c+1⟩ = none) := by
  simp only [minCostOf] at h
  have h7 := (minStep_eq_none h).1
  have h6 := (minStep_eq_none h7).1
  have h5 := (minStep_eq_none h6).1
  have h4 := (minStep_eq_none h5).1
  have hE := (minStep_eq_none h4).2
  have h3 := (minStep_eq_none h4).1
  have hW := (minStep_eq_none h3).2
  have h2 := (minStep_eq_none h3).1
  have hS := (minStep_eq_none h2).2
  have h1 := (minStep_eq_none h2).1
  have hN := (minStep_eq_none h1).2
  exact ⟨fun h => hN (by simpa using h), fun h => hS (by simpa using h),
    fun h => hW (by simpa using h), fun h => hE (by simpa using h)⟩

/-- When the neighbour minimum is finite (and the chunk is at least as
tall as wide, covering the square fields of the engine), `field_flow_dir`
returns a direction whose tile attains the minimum; the `assert(0)` path
is unreachable. -/
theorem field_flow_dir_spec {R C : Int} {intf : Grid (Option Nat)} {t : Coord}
    {w : Nat} (hRC : C ≤ R) (hw : minCostOf R C intf t = some w) :
    field_flow_dir R C intf t ≠ .NONE ∧
      gridGet none intf (dirTile t (field_flow_dir R C intf t)) = some w := by
  have hA := minCostOf_attained hw
  simp only [field_flow_dir, hw]
  split_ifs with h1 h2 h3 h4 h5 h6 h7 h8
  · have e : dirTile t FlowDir.N = ⟨t.r - 1, t.c⟩ := by
      simp [dirTile, dirOffset, Coord.mk.injEq]
      omega
    exact ⟨by simp, by rw [e]; exact oEq_iff.mp (Bool.and_eq_true_iff.mp h1).2⟩
  · have e : dirTile t FlowDir.S = ⟨t.r + 1, t.c⟩ := by
      simp [dirTile, dirOffset, Coord.mk.injEq]
    exact ⟨by simp, by rw [e]; exact oEq_iff.mp (Bool.and_eq_true_iff.mp h2).2⟩
  · have e : dirTile t FlowDir.E = ⟨t.r, t.c + 1⟩ := by
      simp [dirTile, dirOffset, Coord.mk.injEq]
    exact ⟨by simp, by rw [e]; exact oEq_iff.mp (Bool.and_eq_true_iff.mp h3).2⟩
  · have e : dirTile t FlowDir.W = ⟨t.r, t.c - 1⟩ := by
      simp [dirTile, dirOffset, Coord.mk.injEq]
      omega
    exact ⟨by simp, by rw [e]; exact oEq_iff.mp (Bool.and_eq_true_iff.mp h4).2⟩
  · have e : dirTile t FlowDir.NW = ⟨t.r - 1, t.c - 1⟩ := by
      simp [dirTile, dirOffset, Coord.mk.injEq]
      omega
    exact ⟨by simp, by rw [e]; exact oEq_iff.mp (Bool.and_eq_true_iff.mp h5).2⟩
  · have e : dirTile t FlowDir.NE = ⟨t.r - 1, t.c + 1⟩ := by
      simp [dirTile, dirOffset, Coord.mk.injEq]
      omega
    exact ⟨by simp, by rw [e]; exact oEq_iff.mp (Bool.and_eq_true_iff.mp h6).2⟩
  · have e : dirTile t FlowDir.SW = ⟨t.r + 1, t.c - 1⟩ := by
      simp [dirTile, dirOffset, Coord.mk.injEq]
      omega
    exact ⟨by simp, by rw [e]; exact oEq_iff.mp (Bool.and_eq_true_iff.mp h7).2⟩
  · have e : dirTile t FlowDir.SE = ⟨t.r + 1, t.c + 1⟩ := by
      simp [dirTile, dirOffset, Coord.mk.injEq]
    exact ⟨by simp, by rw [e]; exact oEq_iff.mp (Bool.and_eq_true_iff.mp h8).2⟩
  · exfalso
    rcases hA with ⟨hb, hv⟩ | ⟨hb, hv⟩ | ⟨hb, hv⟩ | ⟨hb, hv⟩
      | ⟨hb1, hb2, _, _, hv⟩ | ⟨hb1, hb2, _, _, hv⟩
      | ⟨hb1, hb2, _, _, hv⟩ | ⟨hb1, hb2, _, _, hv⟩
    · exact h1 (by simp [hb, oEq_iff, hv])
    · exact h2 (by simp [hb, oEq_iff, hv])
    · exact h4 (by simp [hb, oEq_iff, hv])
    · exact h3 (by simp [hb, oEq_iff, hv])
    · exact h5 (by simp [hb1, hb2, oEq_iff, hv])
    · exact h6 (by simp [hb1, hb2, oEq_iff, hv])
    · exact h7 (by simp [hb1, hb2, oEq_iff, hv])
    · exact h8 (by simp [hb1, hb2, show t.c < R - 1 by omega, oEq_iff, hv])

/-- A diagonal result of `field_flow_dir` pins the diagonal tile's value
to the (finite, admissibly attained) neighbour minimum. -/
theorem field_flow_dir_diag {R C : Int} {intf : Grid (Option Nat)} {t : Coord}
    (hd : isDiagonal (field_flow_dir R C intf t) = true) :
    ∃ w, minCostOf R C intf t = some w ∧
      gridGet none intf (dirTile t (field_flow_dir R C intf t)) = some w ∧
      admissibleAttains R C intf t w := by
  rcases hm : minCostOf R C intf t with _ | w
  · exfalso
    have hcard := minCostOf_none (R := R) (C := C) hm
    revert hd
    simp only [field_flow_dir, hm]
    split_ifs with h1 h2 h3 h4 h5 h6 h7 h8 <;>
      intro hd <;> simp only [isDiagonal] at hd <;> try cases hd
    · -- NW returned: r > 0 holds, so the N branch must have fired
      have hr : 0 < t.r := by
        rcases Bool.and_eq_true_iff.mp (Bool.and_eq_true_iff.mp h5).1 with ⟨ha, _⟩
        simpa using ha
      exact h1 (by simp [hr, oEq_iff, hcard.1 hr])
    · have hr : 0 < t.r := by
        rcases Bool.and_eq_true_iff.mp (Bool.and_eq_true_iff.mp h6).1 with ⟨ha, _⟩
        simpa using ha
      exact h1 (by simp [hr, oEq_iff, hcard.1 hr])
    · have hr : t.r < R - 1 := by
        rcases Bool.and_eq_true_iff.mp (Bool.and_eq_true_iff.mp h7).1 with ⟨ha, _⟩
        simpa using ha
      exact h2 (by simp [hr, oEq_iff, hcard.2.1 hr])
    · have hr : t.r < R - 1 := by
        rcases Bool.and_eq_true_iff.mp (Bool.and_eq_true_iff.mp h8).1 with ⟨ha, _⟩
        simpa using ha
      exact h2 (by simp [hr, oEq_iff, hcard.2.1 hr])
  · refine ⟨w, rfl, ?_, minCostOf_attained hm⟩
    revert hd
    simp only [field_flow_dir, hm]
    split_ifs with h1 h2 h3 h4 h5 h6 h7 h8 <;> intro hd
    · cases hd
    · cases hd
    · cases hd
    · cases hd
    · have e : dirTile t FlowDir.NW = ⟨t.r - 1, t.c - 1⟩ := by
        simp [dirTile, dirOffset, Coord.mk.injEq]
        omega
      rw [e]
      exact oEq_iff.mp (Bool.and_eq_true_iff.mp h5).2
    · have e : dirTile t FlowDir.NE = ⟨t.r - 1, t.c + 1⟩ := by
        simp [dirTile, dirOffset, Coord.mk.injEq]
        omega
      rw [e]
      exact oEq_iff.mp (Bool.and_eq_true_iff.mp h6).2
    · have e : dirTile t FlowDir.SW = ⟨t.r + 1, t.c - 1⟩ := by
        simp [dirTile, dirOffset, Coord.mk.injEq]
        omega
      rw [e]
      exact oEq_iff.mp (Bool.and_eq_true_iff.mp h7).2
    · have e : dirTile t FlowDir.SE = ⟨t.r + 1, t.c + 1⟩ := by
        simp [dirTile, dirOffset, Coord.mk.injEq]
      rw [e]
      exact oEq_iff.mp (Bool.and_eq_true_iff.mp h8).2
    · cases hd

/-! The cardinal neighbourhood and the neighbour lists. -/

theorem coordEq {a b c d : Int} (h1 : a = c) (h2 : b = d) :
    (⟨a, b⟩ : Coord) = ⟨c, d⟩ := by rw [h1, h2]

theorem mem_cardNeighbours_iff {m t : Coord} :
    m ∈ cardNeighbours t ↔
      m = ⟨t.r - 1, t.c⟩ ∨ m = ⟨t.r, t.c - 1⟩ ∨ m = ⟨t.r, t.c + 1⟩
        ∨ m = ⟨t.r + 1, t.c⟩ := by
  simp only [cardNeighbours, cardDeltas, List.map_cons, List.map_nil,
    List.mem_cons, List.not_mem_nil, or_false]
  constructor
  · rintro (rfl | rfl | rfl | rfl)
    · exact Or.inl (coordEq (by omega) (by omega))
    · exact Or.inr (Or.inl (coordEq (by omega) (by omega)))
    · exact Or.inr (Or.inr (Or.inl (coordEq (by omega) (by omega))))
    · exact Or.inr (Or.inr (Or.inr (coordEq (by omega) (by omega))))
  · rintro (rfl | rfl | rfl | rfl)
    · exact Or.inl (coordEq (by omega) (by omega))
    · exact Or.inr (Or.inl (coordEq (by omega) (by omega)))
    · exact Or.inr (Or.inr (Or.inl (coordEq (by omega) (by omega))))
    · exact Or.inr (Or.inr (Or.inr (coordEq (by omega) (by omega))))

theorem cardNeighbours_symm {m t : Coord} (h : m ∈ cardNeighbours t) :
    t ∈ cardNeighbours m := by
  rw [mem_cardNeighbours_iff] at h ⊢
  rcases t with ⟨a, b⟩
  rcases h with rfl | rfl | rfl | rfl <;> dsimp only <;>
    first
    | exact Or.inl (coordEq (by omega) (by omega))
    | exact Or.inr (Or.inl (coordEq (by omega) (by omega)))
    | exact Or.inr (Or.inr (Or.inl (coordEq (by omega) (by omega))))
    | exact Or.inr (Or.inr (Or.inr (coordEq (by omega) (by omega))))

theorem cardNeighbours_ne {m t : Coord} (h : m ∈ cardNeighbours t) : m ≠ t := by
  rw [mem_cardNeighbours_iff] at h
  intro hc
  subst hc
  rcases h with h | h | h | h <;>
  · have hr := congrArg Coord.r h
    have hc2 := congrArg Coord.c h
    simp only at hr hc2
    omega

/-- Characterization of `field_neighbours_grid` membership: the neighbours
are in-bounds cardinal neighbours of `coord`, carrying the blocker-adjusted
step cost. -/
theorem mem_field_neighbours_grid {R C : Int} {chunk : NavChunk} {coord n : Coord}
    {k : Nat} {op : Bool} {fid : Int} {getE : Int → Nat}
    (h : (n, k) ∈ field_neighbours_grid R C chunk coord op fid getE) :
    inBoundsB R C n = true ∧ n ∈ cardNeighbours coord ∧
      k = (if chunk.blockers n > 0 then COST_IMPASSABLE else chunk.cost_base n) := by
  simp only [field_neighbours_grid, List.mem_filterMap] at h
  obtain ⟨d, hd, hfd⟩ := h
  simp only [cardDeltas, List.mem_cons, List.not_mem_nil, or_false] at hd
  rcases hd with rfl | rfl | rfl | rfl <;>
  · simp only at hfd
    split at hfd
    · cases hfd
    · split at hfd
      · cases hfd
      · rename_i hb _
        cases hfd
        refine ⟨by simpa using hb, ?_, rfl⟩
        rw [mem_cardNeighbours_iff]
        first
        | exact Or.inl (coordEq (by omega) (by omega))
        | exact Or.inr (Or.inl (coordEq (by omega) (by omega)))
        | exact Or.inr (Or.inr (Or.inl (coordEq (by omega) (by omega))))
        | exact Or.inr (Or.inr (Or.inr (coordEq (by omega) (by omega))))

/-- A popped entry was in the queue. -/
theorem pqPopMin_mem {q : PQueue} {e : Option Nat × Coord} {rest : PQueue}
    (h : pqPopMin q = some (e, rest)) : e ∈ q := by
  induction q generalizing e rest with
  | nil => cases h
  | cons x xs ih =>
    simp only [pqPopMin] at h
    split at h
    · cases h
      simp
    · rename_i m mrest heq
      split at h
      · cases h
        simp
      · cases h
        exact List.mem_cons_of_mem _ (ih heq)

/-- The queue remainder after a pop consists of entries of the queue. -/
theorem pqPopMin_rest_mem {q : PQueue} {e : Option Nat × Coord} {rest : PQueue}
    (h : pqPopMin q = some (e, rest)) : ∀ y ∈ rest, y ∈ q := by
  induction q generalizing e rest with
  | nil => cases h
  | cons x xs ih =>
    simp only [pqPopMin] at h
    split at h
    · cases h
      intro y hy
      cases hy
    · rename_i m mrest heq
      split at h
      · cases h
        intro y hy
        exact List.mem_cons_of_mem _ hy
      · cases h
        intro y hy
        rcases List.mem_cons.mp hy with rfl | hy
        · simp
        · exact List.mem_cons_of_mem _ (ih heq y hy)



/-! Preservation of the wavefront invariants. -/

theorem foldl_inv {α β : Type} (P : α → Prop) (f : α → β → α) (l : List β)
    (hf : ∀ s x, x ∈ l → P s → P (f s x)) (s : α) (hs : P s) :
    P (l.foldl f s) := by
  induction l generalizing s with
  | nil => exact hs
  | cons x xs ih =>
    exact ih (fun s y hy => hf s y (List.mem_cons_of_mem _ hy)) _
      (hf s x (List.mem_cons_self _ _) hs)

theorem oLEb_some {m : Option Nat} {x : Nat} (h : oLEb m (some x)) :
    ∃ w, m = some w ∧ w ≤ x := by
  cases m with
  | none => simp [oLEb, oLT] at h
  | some w =>
    refine ⟨w, rfl, ?_⟩
    simp only [oLEb, oLT, decide_eq_false_iff_not, not_lt] at h
    exact h

/-- One relaxation preserves the invariants whenever the popped tile and
the neighbour are in bounds, mutual cardinal neighbours, and the step cost
is at least 1. -/
theorem relaxNeighbour_inv {R C : Int} {s : BState} {curr n : Coord} {k : Nat}
    (hs : BInv R C s) (hcurr : inBoundsB R C curr = true)
    (hn : inBoundsB R C n = true) (hcn : curr ∈ cardNeighbours n)
    (hk : 1 ≤ k) : BInv R C (relaxNeighbour s curr (n, k)) := by
  obtain ⟨hwf, hq, hinv⟩ := hs
  unfold relaxNeighbour
  dsimp only
  split
  case isFalse => exact ⟨hwf, hq, hinv⟩
  case isTrue h =>
    rcases hg : gridGet none s.intf curr with _ | w
    · rw [hg, Option.map_none'] at h
      exact absurd h (by simp [oLT])
    · rw [hg] at h
      simp only [Option.map_some'] at h ⊢
      refine ⟨gridWF_set hwf, ?_, ?_⟩
      · dsimp only
        split
        · exact hq
        · intro e he
          rcases List.mem_append.mp he with he | he
          · exact hq e he
          · rcases List.mem_singleton.mp he with rfl
            exact hn
      · intro t v htb hget hv
        by_cases htn : t = n
        · subst htn
          rw [gridGet_set_self hwf htb] at hget
          cases hget
          refine ⟨curr, w, hcn, hcurr, ?_, by omega⟩
          rw [gridGet_set_ne hcurr hn (cardNeighbours_ne hcn)]
          exact hg
        · rw [gridGet_set_ne htb hn htn] at hget
          obtain ⟨m, vm, hmem, hmb, hmg, hlt⟩ := hinv t v htb hget hv
          by_cases hmn : m = n
          · have hvm : gridGet none s.intf n = some vm := by
              rw [← hmn]
              exact hmg
            rw [hvm] at h
            have hwk : w + k < vm := by simpa [oLT] using h
            refine ⟨m, w + k, hmem, hmb, ?_, by omega⟩
            rw [hmn]
            exact gridGet_set_self hwf hn
          · exact ⟨m, vm, hmem, hmb, by rw [gridGet_set_ne hmb hn hmn]; exact hmg, hlt⟩

/-- One iteration of `field_build_integration` preserves the invariants,
given the spec's cost data model (`cost_base >= 1`). -/
theorem integrationStep_inv {R C : Int} {chunk : NavChunk} {fid : Int}
    {getE : Int → Nat} {s s' : BState}
    (hcost : ∀ t, 1 ≤ chunk.cost_base t)
    (h : integrationStep R C chunk fid getE s = some s') (hs : BInv R C s) :
    BInv R C s' := by
  obtain ⟨hwf, hq, hinv⟩ := hs
  unfold integrationStep at h
  split at h
  · cases h
  · rename_i pr curr rest heq
    cases h
    have hcurr : inBoundsB R C curr = true := hq _ (pqPopMin_mem heq)
    have hrest : queueInBounds R C rest := fun e he =>
      hq e (pqPopMin_rest_mem heq e he)
    refine foldl_inv (BInv R C) _ _ ?_ _ ⟨hwf, hrest, hinv⟩
    intro s2 nc hnc hs2
    rcases nc with ⟨n, k⟩
    obtain ⟨hb, hmem, hk⟩ := mem_field_neighbours_grid hnc
    refine relaxNeighbour_inv hs2 hcurr hb (cardNeighbours_symm hmem) ?_
    rw [hk]
    split
    · simp [COST_IMPASSABLE]
    · exact hcost n

/-- One iteration of `field_build_integration_nonpass` preserves the
invariants; relaxed tiles are impassable, so their step cost is 255. -/
theorem integrationStepNonpass_inv {R C : Int} {chunk : NavChunk} {fid : Int}
    {getE : Int → Nat} {s s' : BState}
    (hcost : ∀ t, 1 ≤ chunk.cost_base t)
    (h : integrationStepNonpass R C chunk fid getE s = some s')
    (hs : BInv R C s) : BInv R C s' := by
  obtain ⟨hwf, hq, hinv⟩ := hs
  unfold integrationStepNonpass at h
  split at h
  · cases h
  · rename_i pr curr rest heq
    cases h
    have hcurr : inBoundsB R C curr = true := hq _ (pqPopMin_mem heq)
    have hrest : queueInBounds R C rest := fun e he =>
      hq e (pqPopMin_rest_mem heq e he)
    refine foldl_inv (BInv R C) _ _ ?_ _ ⟨hwf, hrest, hinv⟩
    intro s2 nc hnc hs2
    rcases nc with ⟨n, k⟩
    obtain ⟨hb, hmem, hk⟩ := mem_field_neighbours_grid hnc
    dsimp only
    split
    · exact hs2
    · refine relaxNeighbour_inv hs2 hcurr hb (cardNeighbours_symm hmem) ?_
      rw [hk]
      split
      · simp [COST_IMPASSABLE]
      · exact hcost n

theorem field_build_integration_inv {R C : Int} {chunk : NavChunk} {fid : Int}
    {getE : Int → Nat} (hcost : ∀ t, 1 ≤ chunk.cost_base t) :
    ∀ (fuel : Nat) (s : BState), BInv R C s →
      BInv R C (field_build_integration R C chunk fid getE fuel s) := by
  intro fuel
  induction fuel with
  | zero => exact fun s hs => hs
  | succ fuel ih =>
    intro s hs
    rw [field_build_integration]
    split
    · exact hs
    · rename_i s' heq
      exact ih s' (integrationStep_inv hcost heq hs)

theorem field_build_integration_nonpass_inv {R C : Int} {chunk : NavChunk}
    {fid : Int} {getE : Int → Nat} (hcost : ∀ t, 1 ≤ chunk.cost_base t) :
    ∀ (fuel : Nat) (s : BState), BInv R C s →
      BInv R C (field_build_integration_nonpass R C chunk fid getE fuel s) := by
  intro fuel
  induction fuel with
  | zero => exact fun s hs => hs
  | succ fuel ih =>
    intro s hs
    rw [field_build_integration_nonpass]
    split
    · exact hs
    · rename_i s' heq
      exact ih s' (integrationStepNonpass_inv hcost heq hs)

/-- The seeded initial state satisfies the invariants: every finite cell
holds 0, so the descent condition is vacuous. -/
theorem initBState_inv {R C : Int} {seeds : List Coord}
    (hseeds : ∀ t ∈ seeds, inBoundsB R C t = true) :
    BInv R C (initBState R C seeds) := by
  have main : ∀ (seeds' : List Coord), (∀ t ∈ seeds', inBoundsB R C t = true) →
      ∀ (g : Grid (Option Nat)), gridWF R C g →
      (∀ t v, inBoundsB R C t = true → gridGet none g t = some v → v = 0) →
      gridWF R C (seeds'.foldl (fun g t => gridSet g t (some 0)) g) ∧
      (∀ t v, inBoundsB R C t = true →
        gridGet none (seeds'.foldl (fun g t => gridSet g t (some 0)) g) t = some v →
        v = 0) := by
    intro seeds'
    induction seeds' with
    | nil => exact fun _ g hwf hz => ⟨hwf, hz⟩
    | cons s0 rest ih =>
      intro hb g hwf hz
      refine ih (fun t ht => hb t (List.mem_cons_of_mem _ ht)) _ (gridWF_set hwf) ?_
      intro t v htb hget
      by_cases hts : t = s0
      · subst hts
        rw [gridGet_set_self hwf htb] at hget
        cases hget
        rfl
      · rw [gridGet_set_ne htb (hb s0 (List.mem_cons_self _ _)) hts] at hget
        exact hz t v htb hget
  obtain ⟨hwf, hz⟩ := main seeds hseeds (gridInit R C none) gridWF_init
    (fun t v htb hget => by rw [gridGet_init htb] at hget; cases hget)
  refine ⟨hwf, ?_, ?_⟩
  · intro e he
    obtain ⟨t, ht, rfl⟩ := List.mem_map.mp he
    exact hseeds t ht
  · intro t v htb hget hv
    have := hz t v htb hget
    omega

/-- Strict descent at the flow level: under the descent invariant, the
direction chosen by `field_flow_dir` at a finite positive tile points to a
tile with strictly smaller integration. -/
theorem flow_dir_descends {R C : Int} {intf : Grid (Option Nat)} {t : Coord}
    {v : Nat} (hRC : C ≤ R) (hinv : descentInv R C intf)
    (htb : inBoundsB R C t = true) (hget : gridGet none intf t = some v)
    (hv : 0 < v) :
    field_flow_dir R C intf t ≠ .NONE ∧
      ∃ w, gridGet none intf (dirTile t (field_flow_dir R C intf t)) = some w
        ∧ w < v := by
  obtain ⟨m, vm, hmem, hmb, hmg, hlt⟩ := hinv t v htb hget hv
  have hle : oLEb (minCostOf R C intf t) (some vm) := by
    rw [mem_cardNeighbours_iff] at hmem
    rw [inBoundsB_iff] at hmb
    rcases hmem with rfl | rfl | rfl | rfl <;> dsimp only at hmb
    · have h := (@minCostOf_le_card R C intf t).1
        (by omega)
      rw [hmg] at h
      exact h
    · have h := (@minCostOf_le_card R C intf t).2.2.1
        (by omega)
      rw [hmg] at h
      exact h
    · have h := (@minCostOf_le_card R C intf t).2.2.2
        (by omega)
      rw [hmg] at h
      exact h
    · have h := (@minCostOf_le_card R C intf t).2.1
        (by omega)
      rw [hmg] at h
      exact h
  obtain ⟨w, hmw, hwvm⟩ := oLEb_some hle
  obtain ⟨hne, hdir⟩ := field_flow_dir_spec hRC hmw
  exact ⟨hne, w, hdir, by omega⟩

/-! Per-cell readings of the flow construction and fix-up passes. -/

/-- What `field_build_flow` leaves in an in-bounds cell. -/
theorem field_build_flow_get {R C : Int} {intf : Grid (Option Nat)}
    {flow0 : Grid FlowDir} {t : Coord} (hwf : gridWF R C flow0)
    (ht : inBoundsB R C t = true) :
    gridGet FlowDir.NONE (field_build_flow R C intf flow0) t =
      match gridGet none intf t with
      | none => gridGet FlowDir.NONE flow0 t
      | some 0 => FlowDir.NONE
      | some (_ + 1) => field_flow_dir R C intf t := by
  have hcs : ∀ x ∈ allCoords R C, inBoundsB R C x = true :=
    fun x hx => mem_allCoords.mp hx
  rcases hg : gridGet none intf t with _ | v
  · exact writeCells_get_none hcs ht (by rw [hg])
  · rcases v with _ | v
    · exact writeCells_get_mem hwf hcs (mem_allCoords.mpr ht) (by rw [hg])
    · exact writeCells_get_mem hwf hcs (mem_allCoords.mpr ht) (by rw [hg]; rfl)

theorem field_build_flow_wf {R C : Int} {intf : Grid (Option Nat)}
    {flow0 : Grid FlowDir} (hwf : gridWF R C flow0) :
    gridWF R C (field_build_flow R C intf flow0) :=
  writeCells_wf hwf

/-- `field_fixup_portal_edges` rewrites exactly the integration-0 cells
(to the portal's cardinal direction, when defined). -/
theorem field_fixup_portal_edges_get {R C : Int} {intf : Grid (Option Nat)}
    {flow0 : Grid FlowDir} {port : Portal} {t : Coord}
    (hwf : gridWF R C flow0) (ht : inBoundsB R C t = true) :
    gridGet FlowDir.NONE (field_fixup_portal_edges R C intf flow0 port) t =
      if gridGet none intf t = some 0 then
        match portalEdgeDir port with
        | some d => d
        | none => gridGet FlowDir.NONE flow0 t
      else gridGet FlowDir.NONE flow0 t := by
  have hcs : ∀ x ∈ allCoords R C, inBoundsB R C x = true :=
    fun x hx => mem_allCoords.mp hx
  by_cases h0 : gridGet none intf t = some 0
  · rw [if_pos h0]
    rcases hpd : portalEdgeDir port with _ | d
    · exact writeCells_get_none hcs ht (by rw [h0]; simp [oEq, hpd])
    · exact writeCells_get_mem hwf hcs (mem_allCoords.mpr ht)
        (by rw [h0]; simp [oEq, hpd])
  · rw [if_neg h0]
    refine writeCells_get_none hcs ht ?_
    have : oEq (gridGet none intf t) (some 0) = false := by
      rcases hg : gridGet none intf t with _ | v
      · rfl
      · have hv : v ≠ 0 := fun hv => h0 (by rw [hg, hv])
        simp [oEq, hv]
    simp [this]

theorem field_fixup_portal_edges_wf {R C : Int} {intf : Grid (Option Nat)}
    {flow0 : Grid FlowDir} {port : Portal} (hwf : gridWF R C flow0) :
    gridWF R C (field_fixup_portal_edges R C intf flow0 port) :=
  writeCells_wf hwf

/-- `field_fixup` leaves cells whose integration is not 0 unchanged. -/
theorem field_fixup_get_ne_zero {R C : Int} {target : FieldTarget}
    {intf : Grid (Option Nat)} {flow0 : Grid FlowDir} {chunk : NavChunk}
    {t : Coord} (hwf : gridWF R C flow0) (ht : inBoundsB R C t = true)
    (h0 : gridGet none intf t ≠ some 0) :
    gridGet FlowDir.NONE (field_fixup R C target intf flow0 chunk) t =
      gridGet FlowDir.NONE flow0 t := by
  cases target with
  | tile _ => rfl
  | enemies _ => rfl
  | portal p =>
    rw [field_fixup, field_fixup_portal_edges_get hwf ht, if_neg h0]
  | portalmask m =>
    rw [field_fixup]
    induction selectedIdx chunk.portals.length m generalizing flow0 with
    | nil => rfl
    | cons i rest ih =>
      rw [List.foldl_cons]
      cases hpi : chunk.portals[i]? with
      | none => exact ih hwf
      | some p =>
        rw [ih (field_fixup_portal_edges_wf hwf),
          field_fixup_portal_edges_get hwf ht, if_neg h0]

theorem field_fixup_wf {R C : Int} {target : FieldTarget}
    {intf : Grid (Option Nat)} {flow0 : Grid FlowDir} {chunk : NavChunk}
    (hwf : gridWF R C flow0) :
    gridWF R C (field_fixup R C target intf flow0 chunk) := by
  cases target with
  | tile _ => exact hwf
  | enemies _ => exact hwf
  | portal p => exact field_fixup_portal_edges_wf hwf
  | portalmask m =>
    rw [field_fixup]
    induction selectedIdx chunk.portals.length m generalizing flow0 with
    | nil => exact hwf
    | cons i rest ih =>
      rw [List.foldl_cons]
      cases hpi : chunk.portals[i]? with
      | none => exact ih hwf
      | some p => exact ih (field_fixup_portal_edges_wf hwf)

/-! Facts about the passable-frontier BFS. -/

/-- The BFS only ever holds and emits in-bounds coordinates. -/
theorem passableFrontierRun_inBounds {R C : Int} {chunk : NavChunk} :
    ∀ (fuel : Nat) (s : BfsState),
      (∀ t ∈ s.queue, inBoundsB R C t = true) →
      (∀ t ∈ s.out, inBoundsB R C t = true) →
      ∀ t ∈ (passableFrontierRun R C chunk fuel s).out, inBoundsB R C t = true := by
  intro fuel
  induction fuel with
  | zero => exact fun s _ hout => hout
  | succ fuel ih =>
    intro s hq hout
    rw [passableFrontierRun]
    cases hsq : s.queue with
    | nil =>
      rw [show passableFrontierStep R C chunk s = none by
        rw [passableFrontierStep, hsq]]
      exact hout
    | cons curr rest =>
      have hcurr : inBoundsB R C curr = true := hq curr (by rw [hsq]; simp)
      have hrest : ∀ t ∈ rest, inBoundsB R C t = true := fun t ht =>
        hq t (by rw [hsq]; exact List.mem_cons_of_mem _ ht)
      by_cases hpass : field_tile_passable chunk curr = true
      · rw [show passableFrontierStep R C chunk s =
            some { s with queue := rest, out := s.out ++ [curr] } by
          rw [passableFrontierStep, hsq]
          dsimp only
          rw [if_pos hpass]]
        refine ih _ hrest ?_
        intro t ht
        rcases List.mem_append.mp ht with ht | ht
        · exact hout t ht
        · rcases List.mem_singleton.mp ht with rfl
          exact hcurr
      · rw [show passableFrontierStep R C chunk s =
            some (bfsDeltas.foldl
              (fun s2 d =>
                let n : Coord := ⟨curr.r + d.1, curr.c + d.2⟩
                if !(inBoundsB R C n) then s2
                else if gridGet false s2.visited n then s2
                else { s2 with visited := gridSet s2.visited n true,
                               queue := s2.queue ++ [n] })
              { s with queue := rest }) by
          rw [passableFrontierStep, hsq]
          dsimp only
          rw [if_neg hpass]]
        have hfold := foldl_inv
          (fun (s2 : BfsState) =>
            (∀ t ∈ s2.queue, inBoundsB R C t = true) ∧
              (∀ t ∈ s2.out, inBoundsB R C t = true))
          (fun s2 d =>
            let n : Coord := ⟨curr.r + d.1, curr.c + d.2⟩
            if !(inBoundsB R C n) then s2
            else if gridGet false s2.visited n then s2
            else { s2 with visited := gridSet s2.visited n true,
                           queue := s2.queue ++ [n] })
          bfsDeltas
          (by
            intro s2 d _ hs2
            dsimp only
            split
            · exact hs2
            · rename_i hnb
              split
              · exact hs2
              · refine ⟨?_, hs2.2⟩
                intro t ht
                rcases List.mem_append.mp ht with ht | ht
                · exact hs2.1 t ht
                · rcases List.mem_singleton.mp ht with rfl
                  simpa using hnb)
          { s with queue := rest } ⟨hrest, hout⟩
        exact ih _ hfold.1 hfold.2

/-- The initial frontier for `N_FlowFieldUpdateToNearestPathable` is a set
of in-bounds tiles whenever the start tile is in bounds. -/
theorem field_passable_frontier_inBounds {R C : Int} {chunk : NavChunk}
    {start : Coord} {fuel : Nat} (hstart : inBoundsB R C start = true) :
    ∀ t ∈ field_passable_frontier R C chunk start fuel,
      inBoundsB R C t = true := by
  refine passableFrontierRun_inBounds fuel _ ?_ ?_
  · intro t ht
    rcases List.mem_singleton.mp ht with rfl
    exact hstart
  · intro t ht
    cases ht

/-- With no passable tile anywhere, the BFS collects nothing. -/
theorem passableFrontierRun_nil {R C : Int} {chunk : NavChunk}
    (hall : ∀ t, inBoundsB R C t = true → field_tile_passable chunk t = false) :
    ∀ (fuel : Nat) (s : BfsState),
      (∀ t ∈ s.queue, inBoundsB R C t = true) → s.out = [] →
      (passableFrontierRun R C chunk fuel s).out = [] := by
  intro fuel
  induction fuel with
  | zero => exact fun s _ hout => hout
  | succ fuel ih =>
    intro s hq hout
    rw [passableFrontierRun]
    cases hsq : s.queue with
    | nil =>
      rw [show passableFrontierStep R C chunk s = none by
        rw [passableFrontierStep, hsq]]
      exact hout
    | cons curr rest =>
      have hcurr : inBoundsB R C curr = true := hq curr (by rw [hsq]; simp)
      have hrest : ∀ t ∈ rest, inBoundsB R C t = true := fun t ht =>
        hq t (by rw [hsq]; exact List.mem_cons_of_mem _ ht)
      have hpass : ¬(field_tile_passable chunk curr = true) := by
        rw [hall curr hcurr]
        simp
      rw [show passableFrontierStep R C chunk s =
          some (bfsDeltas.foldl
            (fun s2 d =>
              let n : Coord := ⟨curr.r + d.1, curr.c + d.2⟩
              if !(inBoundsB R C n) then s2
              else if gridGet false s2.visited n then s2
              else { s2 with visited := gridSet s2.visited n true,
                             queue := s2.queue ++ [n] })
            { s with queue := rest }) by
        rw [passableFrontierStep, hsq]
        dsimp only
        rw [if_neg hpass]]
      have hfold := foldl_inv
        (fun (s2 : BfsState) =>
          (∀ t ∈ s2.queue, inBoundsB R C t = true) ∧ s2.out = [])
        (fun s2 d =>
          let n : Coord := ⟨curr.r + d.1, curr.c + d.2⟩
          if !(inBoundsB R C n) then s2
          else if gridGet false s2.visited n then s2
          else { s2 with visited := gridSet s2.visited n true,
                         queue := s2.queue ++ [n] })
        bfsDeltas
        (by
          intro s2 d _ hs2
          dsimp only
          split
          · exact hs2
          · rename_i hnb
            split
            · exact hs2
            · refine ⟨?_, hs2.2⟩
              intro t ht
              rcases List.mem_append.mp ht with ht | ht
              · exact hs2.1 t ht
              · rcases List.mem_singleton.mp ht with rfl
                simpa using hnb)
        { s with queue := rest } ⟨hrest, hout⟩
      exact ih _ hfold.1 hfold.2

/-- A drained frontier leaves the integration state untouched. -/
theorem field_build_integration_nonpass_empty {R C : Int} {chunk : NavChunk}
    {fid : Int} {getE : Int → Nat} {intf : Grid (Option Nat)} :
    ∀ fuel, field_build_integration_nonpass R C chunk fid getE fuel
      { intf := intf, queue := [] } = { intf := intf, queue := [] } := by
  intro fuel
  cases fuel with
  | zero => rfl
  | succ fuel => rfl

/-- `writeCells` with an everywhere-undefined payload is the identity. -/
theorem writeCells_nil_payload {α : Type} {f : Coord → Option α}
    {g : Grid α} {cs : List Coord} (hf : ∀ t ∈ cs, f t = none) :
    writeCells f g cs = g := by
  induction cs with
  | nil => rfl
  | cons c cs ih =>
    rw [writeCells_cons, hf c (List.mem_cons_self _ _)]
    exact ih fun t ht => hf t (List.mem_cons_of_mem _ ht)

/-- Characterization of `field_neighbours_grid_los` membership: an
in-bounds, non-`wavefront_blocked` cardinal neighbour, whose cost is the
base cost when passable and `COST_IMPASSABLE` otherwise. -/
theorem mem_field_neighbours_grid_los {R C : Int} {chunk : NavChunk}
    {los : LOSField} {coord n : Coord} {k : Nat} {fid : Int} {getE : Int → Nat}
    (h : (n, k) ∈ field_neighbours_grid_los R C chunk los fid getE coord) :
    inBoundsB R C n = true ∧ n ∈ cardNeighbours coord ∧
      (losGet los n).wavefront_blocked = false ∧
      k = (if passableFor chunk n fid getE then chunk.cost_base n
           else COST_IMPASSABLE) := by
  simp only [field_neighbours_grid_los, List.mem_filterMap] at h
  obtain ⟨d, hd, hfd⟩ := h
  simp only [cardDeltas, List.mem_cons, List.not_mem_nil, or_false] at hd
  rcases hd with rfl | rfl | rfl | rfl <;>
  · simp only at hfd
    split at hfd
    · cases hfd
    · rename_i hb
      split at hfd
      · cases hfd
      · rename_i hw
        cases hfd
        refine ⟨by simpa using hb, ?_, by simpa using hw, rfl⟩
        rw [mem_cardNeighbours_iff]
        first
        | exact Or.inl (coordEq (by omega) (by omega))
        | exact Or.inr (Or.inl (coordEq (by omega) (by omega)))
        | exact Or.inr (Or.inr (Or.inl (coordEq (by omega) (by omega))))
        | exact Or.inr (Or.inr (Or.inr (coordEq (by omega) (by omega))))

/-! Arithmetic of the 64-bit flow-field identities: `x ||| y` coincides
with `x + y` when the operands occupy disjoint bit ranges, each identity
equals its base-256/base-2^32 digit expansion under the engine's value
ranges, and bounded digit expansions are unique. -/

theorem lor_mul_pow_add : ∀ (k a b : Nat), b < 2 ^ k → a * 2 ^ k ||| b = a * 2 ^ k + b := by
  intro k
  induction k with
  | zero =>
    intro a b hb
    have hb0 : b = 0 := by omega
    subst hb0
    simp
  | succ k ih =>
    intro a b hb
    have hbit : Nat.bit (b.testBit 0) (b >>> 1) = b := Nat.bit_testBit_zero_shiftRight_one b
    have h1 : a * 2 ^ (k + 1) = Nat.bit false (a * 2 ^ k) := by
      simp [Nat.bit_val]
      ring
    have hs : b >>> 1 < 2 ^ k := by
      rw [Nat.shiftRight_one]
      omega
    rw [h1, ← hbit, Nat.lor_bit, ih a (b >>> 1) hs]
    cases b.testBit 0 <;> simp [Nat.bit_val] <;> ring

theorem lor_add_chain (x b k : Nat) (hx : ∃ a, x = a * 2 ^ k) (hb : b < 2 ^ k) :
    x ||| b = x + b := by
  obtain ⟨a, rfl⟩ := hx
  exact lor_mul_pow_add k a b hb

theorem castU64_small {v : Int} (h0 : 0 ≤ v) (h1 : v < 2 ^ 32) : castU64 v = v.toNat := by
  rw [castU64]
  congr 1
  omega

theorem flowFieldID_tile {chunk t : Coord} {layer : Nat}
    (h : idInputBounds chunk (.tile t) layer) :
    N_FlowField_ID chunk (.tile t) layer =
      layer * 2 ^ 60 + t.r.toNat * 2 ^ 24 + t.c.toNat * 2 ^ 16 +
        chunk.r.toNat * 2 ^ 8 + chunk.c.toNat := by
  obtain ⟨hl, hcr0, hcr1, hcc0, hcc1, htr0, htr1, htc0, htc1⟩ := h
  have hTR : t.r.toNat < 256 := by omega
  have hTC : t.c.toNat < 256 := by omega
  have hCR : chunk.r.toNat < 256 := by omega
  have hCC : chunk.c.toNat < 256 := by omega
  simp only [N_FlowField_ID, targetTypeTag,
    castU64_small htr0 (by omega), castU64_small htc0 (by omega),
    castU64_small hcr0 (by omega), castU64_small hcc0 (by omega),
    Nat.shiftLeft_eq, Nat.zero_mul, Nat.or_zero]
  rw [lor_add_chain (layer * 2 ^ 60) (t.r.toNat * 2 ^ 24) 32
      ⟨layer * 2 ^ 28, by ring⟩ (by omega),
    lor_add_chain (layer * 2 ^ 60 + t.r.toNat * 2 ^ 24) (t.c.toNat * 2 ^ 16) 24
      ⟨layer * 2 ^ 36 + t.r.toNat, by ring⟩ (by omega),
    lor_add_chain (layer * 2 ^ 60 + t.r.toNat * 2 ^ 24 + t.c.toNat * 2 ^ 16)
      (chunk.r.toNat * 2 ^ 8) 16
      ⟨layer * 2 ^ 44 + t.r.toNat * 2 ^ 8 + t.c.toNat, by ring⟩ (by omega),
    lor_add_chain (layer * 2 ^ 60 + t.r.toNat * 2 ^ 24 + t.c.toNat * 2 ^ 16 +
        chunk.r.toNat * 2 ^ 8) chunk.c.toNat 8
      ⟨layer * 2 ^ 52 + t.r.toNat * 2 ^ 16 + t.c.toNat * 2 ^ 8 + chunk.r.toNat,
        by ring⟩ (by omega)]

theorem flowFieldID_portal {chunk : Coord} {p : Portal} {layer : Nat}
    (h : idInputBounds chunk (.portal p) layer) :
    N_FlowField_ID chunk (.portal p) layer =
      layer * 2 ^ 60 + 2 ^ 56 + p.ep0.r.toNat * 2 ^ 40 + p.ep0.c.toNat * 2 ^ 32 +
        p.ep1.r.toNat * 2 ^ 24 + p.ep1.c.toNat * 2 ^ 16 +
        chunk.r.toNat * 2 ^ 8 + chunk.c.toNat := by
  obtain ⟨hl, hcr0, hcr1, hcc0, hcc1, h0r0, h0r1, h0c0, h0c1, h1r0, h1r1, h1c0, h1c1⟩ := h
  have hA : p.ep0.r.toNat < 256 := by omega
  have hB : p.ep0.c.toNat < 256 := by omega
  have hD : p.ep1.r.toNat < 256 := by omega
  have hE : p.ep1.c.toNat < 256 := by omega
  have hCR : chunk.r.toNat < 256 := by omega
  have hCC : chunk.c.toNat < 256 := by omega
  simp only [N_FlowField_ID, targetTypeTag,
    castU64_small h0r0 (by omega), castU64_small h0c0 (by omega),
    castU64_small h1r0 (by omega), castU64_small h1c0 (by omega),
    castU64_small hcr0 (by omega), castU64_small hcc0 (by omega),
    Nat.shiftLeft_eq, one_mul]
  rw [lor_add_chain (layer * 2 ^ 60) (2 ^ 56) 60 ⟨layer, by ring⟩ (by omega),
    lor_add_chain (layer * 2 ^ 60 + 2 ^ 56) (p.ep0.r.toNat * 2 ^ 40) 48
      ⟨layer * 2 ^ 12 + 2 ^ 8, by ring⟩ (by omega),
    lor_add_chain (layer * 2 ^ 60 + 2 ^ 56 + p.ep0.r.toNat * 2 ^ 40)
      (p.ep0.c.toNat * 2 ^ 32) 40
      ⟨layer * 2 ^ 20 + 2 ^ 16 + p.ep0.r.toNat, by ring⟩ (by omega),
    lor_add_chain (layer * 2 ^ 60 + 2 ^ 56 + p.ep0.r.toNat * 2 ^ 40 +
        p.ep0.c.toNat * 2 ^ 32) (p.ep1.r.toNat * 2 ^ 24) 32
      ⟨layer * 2 ^ 28 + 2 ^ 24 + p.ep0.r.toNat * 2 ^ 8 + p.ep0.c.toNat, by ring⟩
      (by omega),
    lor_add_chain (layer * 2 ^ 60 + 2 ^ 56 + p.ep0.r.toNat * 2 ^ 40 +
        p.ep0.c.toNat * 2 ^ 32 + p.ep1.r.toNat * 2 ^ 24) (p.ep1.c.toNat * 2 ^ 16) 24
      ⟨layer * 2 ^ 36 + 2 ^ 32 + p.ep0.r.toNat * 2 ^ 16 + p.ep0.c.toNat * 2 ^ 8 +
        p.ep1.r.toNat, by ring⟩ (by omega),
    lor_add_chain (layer * 2 ^ 60 + 2 ^ 56 + p.ep0.r.toNat * 2 ^ 40 +
        p.ep0.c.toNat * 2 ^ 32 + p.ep1.r.toNat * 2 ^ 24 + p.ep1.c.toNat * 2 ^ 16)
      (chunk.r.toNat * 2 ^ 8) 16
      ⟨layer * 2 ^ 44 + 2 ^ 40 + p.ep0.r.toNat * 2 ^ 24 + p.ep0.c.toNat * 2 ^ 16 +
        p.ep1.r.toNat * 2 ^ 8 + p.ep1.c.toNat, by ring⟩ (by omega),
    lor_add_chain (layer * 2 ^ 60 + 2 ^ 56 + p.ep0.r.toNat * 2 ^ 40 +
        p.ep0.c.toNat * 2 ^ 32 + p.ep1.r.toNat * 2 ^ 24 + p.ep1.c.toNat * 2 ^ 16 +
        chunk.r.toNat * 2 ^ 8) chunk.c.toNat 8
      ⟨layer * 2 ^ 52 + 2 ^ 48 + p.ep0.r.toNat * 2 ^ 32 + p.ep0.c.toNat * 2 ^ 24 +
        p.ep1.r.toNat * 2 ^ 16 + p.ep1.c.toNat * 2 ^ 8 + chunk.r.toNat, by ring⟩
      (by omega)]

theorem flowFieldID_enemies {chunk : Coord} {e : EnemiesDesc} {layer : Nat}
    (h : idInputBounds chunk (.enemies e) layer) :
    N_FlowField_ID chunk (.enemies e) layer =
      layer * 2 ^ 60 + 3 * 2 ^ 56 + e.faction_id.toNat * 2 ^ 24 +
        chunk.r.toNat * 2 ^ 8 + chunk.c.toNat := by
  obtain ⟨hl, hcr0, hcr1, hcc0, hcc1, hf0, hf1⟩ := h
  have hF : e.faction_id.toNat < 2 ^ 32 := by omega
  have hCR : chunk.r.toNat < 256 := by omega
  have hCC : chunk.c.toNat < 256 := by omega
  simp only [N_FlowField_ID, targetTypeTag,
    castU64_small hf0 (by omega),
    castU64_small hcr0 (by omega), castU64_small hcc0 (by omega),
    Nat.shiftLeft_eq]
  rw [lor_add_chain (layer * 2 ^ 60) (3 * 2 ^ 56) 58 ⟨layer * 2 ^ 2, by ring⟩
      (by omega),
    lor_add_chain (layer * 2 ^ 60 + 3 * 2 ^ 56) (e.faction_id.toNat * 2 ^ 24) 56
      ⟨layer * 2 ^ 4 + 3, by ring⟩ (by omega),
    lor_add_chain (layer * 2 ^ 60 + 3 * 2 ^ 56 + e.faction_id.toNat * 2 ^ 24)
      (chunk.r.toNat * 2 ^ 8) 16
      ⟨layer * 2 ^ 44 + 3 * 2 ^ 40 + e.faction_id.toNat * 2 ^ 8, by ring⟩ (by omega),
    lor_add_chain (layer * 2 ^ 60 + 3 * 2 ^ 56 + e.faction_id.toNat * 2 ^ 24 +
        chunk.r.toNat * 2 ^ 8) chunk.c.toNat 8
      ⟨layer * 2 ^ 52 + 3 * 2 ^ 48 + e.faction_id.toNat * 2 ^ 16 + chunk.r.toNat,
        by ring⟩ (by omega)]

set_option maxHeartbeats 1000000 in
theorem idDigits_tile_tile {l1 l2 a b c d u v w x : Nat}
    (ha : a < 256) (hb : b < 256) (hc : c < 256) (hd : d < 256)
    (hu : u < 256) (hv : v < 256) (hw : w < 256) (hx : x < 256)
    (h : l1 * 2 ^ 60 + a * 2 ^ 24 + b * 2 ^ 16 + c * 2 ^ 8 + d
       = l2 * 2 ^ 60 + u * 2 ^ 24 + v * 2 ^ 16 + w * 2 ^ 8 + x) :
    l1 = l2 ∧ a = u ∧ b = v ∧ c = w ∧ d = x := by
  omega

set_option maxHeartbeats 1000000 in
theorem idDigits_portal_portal {l1 l2 a b c d e f u v w x y z : Nat}
    (ha : a < 256) (hb : b < 256) (hc : c < 256) (hd : d < 256)
    (he : e < 256) (hf : f < 256)
    (hu : u < 256) (hv : v < 256) (hw : w < 256) (hx : x < 256)
    (hy : y < 256) (hz : z < 256)
    (h : l1 * 2 ^ 60 + 2 ^ 56 + a * 2 ^ 40 + b * 2 ^ 32 + c * 2 ^ 24 +
          d * 2 ^ 16 + e * 2 ^ 8 + f
       = l2 * 2 ^ 60 + 2 ^ 56 + u * 2 ^ 40 + v * 2 ^ 32 + w * 2 ^ 24 +
          x * 2 ^ 16 + y * 2 ^ 8 + z) :
    l1 = l2 ∧ a = u ∧ b = v ∧ c = w ∧ d = x ∧ e = y ∧ f = z := by
  omega

set_option maxHeartbeats 1000000 in
theorem idDigits_enemies_enemies {l1 l2 f g c d w x : Nat}
    (hf : f < 2 ^ 32) (hg : g < 2 ^ 32)
    (hc : c < 256) (hd : d < 256) (hw : w < 256) (hx : x < 256)
    (h : l1 * 2 ^ 60 + 3 * 2 ^ 56 + f * 2 ^ 24 + c * 2 ^ 8 + d
       = l2 * 2 ^ 60 + 3 * 2 ^ 56 + g * 2 ^ 24 + w * 2 ^ 8 + x) :
    l1 = l2 ∧ f = g ∧ c = w ∧ d = x := by
  omega

set_option maxHeartbeats 1000000 in
theorem idDigits_tile_portal_ne {l1 l2 a b c d u v w x y z : Nat}
    (ha : a < 256) (hb : b < 256) (hc : c < 256) (hd : d < 256)
    (hu : u < 256) (hv : v < 256) (hw : w < 256) (hx : x < 256)
    (hy : y < 256) (hz : z < 256)
    (h : l1 * 2 ^ 60 + a * 2 ^ 24 + b * 2 ^ 16 + c * 2 ^ 8 + d
       = l2 * 2 ^ 60 + 2 ^ 56 + u * 2 ^ 40 + v * 2 ^ 32 + w * 2 ^ 24 +
          x * 2 ^ 16 + y * 2 ^ 8 + z) :
    False := by
  omega

set_option maxHeartbeats 1000000 in
theorem idDigits_tile_enemies_ne {l1 l2 a b c d g w x : Nat}
    (ha : a < 256) (hb : b < 256) (hc : c < 256) (hd : d < 256)
    (hg : g < 2 ^ 32) (hw : w < 256) (hx : x < 256)
    (h : l1 * 2 ^ 60 + a * 2 ^ 24 + b * 2 ^ 16 + c * 2 ^ 8 + d
       = l2 * 2 ^ 60 + 3 * 2 ^ 56 + g * 2 ^ 24 + w * 2 ^ 8 + x) :
    False := by
  omega

set_option maxHeartbeats 1000000 in
theorem idDigits_portal_enemies_ne {l1 l2 a b c d e f g w x : Nat}
    (ha : a < 256) (hb : b < 256) (hc : c < 256) (hd : d < 256)
    (he : e < 256) (hf : f < 256)
    (hg : g < 2 ^ 32) (hw : w < 256) (hx : x < 256)
    (h : l1 * 2 ^ 60 + 2 ^ 56 + a * 2 ^ 40 + b * 2 ^ 32 + c * 2 ^ 24 +
          d * 2 ^ 16 + e * 2 ^ 8 + f
       = l2 * 2 ^ 60 + 3 * 2 ^ 56 + g * 2 ^ 24 + w * 2 ^ 8 + x) :
    False := by
  omega

/-! The padding pass of the LOS fields: each step only clears `visible`,
never touches `wavefront_blocked`, and a blocked cell's whole in-bounds
3x3 neighbourhood ends invisible.  All grids stay well-formed. -/

theorem padStep_wf {R C : Int} {t : Coord} {los : LOSField} {d : Int × Int}
    (hwf : gridWF R C los.field) : gridWF R C (padStep R C t los d).field := by
  simp only [padStep]
  split
  · exact gridWF_set hwf
  · exact hwf

theorem padStep_blocked {R C : Int} {t x : Coord} {los : LOSField} {d : Int × Int}
    (hwf : gridWF R C los.field) (hx : inBoundsB R C x = true) :
    (losGet (padStep R C t los d) x).wavefront_blocked =
      (losGet los x).wavefront_blocked := by
  simp only [padStep, losGet]
  split
  · rename_i hyb
    dsimp only
    by_cases hxy : x = (⟨t.r + d.1, t.c + d.2⟩ : Coord)
    · rw [← hxy] at hyb ⊢
      rw [gridGet_set_self hwf hx]
    · rw [gridGet_set_ne hx hyb hxy]
  · rfl

theorem padStep_visible {R C : Int} {t x : Coord} {los : LOSField} {d : Int × Int}
    (hwf : gridWF R C los.field) (hx : inBoundsB R C x = true)
    (hvis : (losGet los x).visible = false) :
    (losGet (padStep R C t los d) x).visible = false := by
  simp only [padStep, losGet] at *
  split
  · rename_i hyb
    dsimp only
    by_cases hxy : x = (⟨t.r + d.1, t.c + d.2⟩ : Coord)
    · rw [← hxy] at hyb ⊢
      rw [gridGet_set_self hwf hx]
    · rw [gridGet_set_ne hx hyb hxy]
      exact hvis
  · exact hvis

theorem padStep_clears {R C : Int} {t : Coord} {los : LOSField} {d : Int × Int}
    (hwf : gridWF R C los.field)
    (hx : inBoundsB R C (⟨t.r + d.1, t.c + d.2⟩ : Coord) = true) :
    (losGet (padStep R C t los d) ⟨t.r + d.1, t.c + d.2⟩).visible = false := by
  simp only [padStep, losGet]
  rw [if_pos hx]
  dsimp only
  rw [gridGet_set_self hwf hx]

theorem padFold_wf {R C : Int} {t : Coord} :
    ∀ (ds : List (Int × Int)) (los : LOSField), gridWF R C los.field →
      gridWF R C (ds.foldl (padStep R C t) los).field := by
  intro ds
  induction ds with
  | nil => exact fun los h => h
  | cons d ds ih =>
    intro los h
    rw [List.foldl_cons]
    exact ih _ (padStep_wf h)

theorem padFold_blocked {R C : Int} {t x : Coord} (hx : inBoundsB R C x = true) :
    ∀ (ds : List (Int × Int)) (los : LOSField), gridWF R C los.field →
      (losGet (ds.foldl (padStep R C t) los) x).wavefront_blocked =
        (losGet los x).wavefront_blocked := by
  intro ds
  induction ds with
  | nil => exact fun los _ => rfl
  | cons d ds ih =>
    intro los h
    rw [List.foldl_cons, ih _ (padStep_wf h), padStep_blocked h hx]

theorem padFold_visible {R C : Int} {t x : Coord} (hx : inBoundsB R C x = true) :
    ∀ (ds : List (Int × Int)) (los : LOSField), gridWF R C los.field →
      (losGet los x).visible = false →
      (losGet (ds.foldl (padStep R C t) los) x).visible = false := by
  intro ds
  induction ds with
  | nil => exact fun los _ h => h
  | cons d ds ih =>
    intro los h hv
    rw [List.foldl_cons]
    exact ih _ (padStep_wf h) (padStep_visible h hx hv)

theorem padFold_clears {R C : Int} {t x : Coord} (hx : inBoundsB R C x = true) :
    ∀ (ds : List (Int × Int)) (los : LOSField), gridWF R C los.field →
      (∃ d ∈ ds, x.r = t.r + d.1 ∧ x.c = t.c + d.2) →
      (losGet (ds.foldl (padStep R C t) los) x).visible = false := by
  intro ds
  induction ds with
  | nil =>
    rintro los _ ⟨d, hd, _⟩
    cases hd
  | cons d ds ih =>
    rintro los h ⟨d2, hd2, hr, hc⟩
    rw [List.foldl_cons]
    rcases List.mem_cons.mp hd2 with rfl | hmem
    · have hxy : x = (⟨t.r + d2.1, t.c + d2.2⟩ : Coord) := by
        calc x = ⟨x.r, x.c⟩ := rfl
          _ = ⟨t.r + d2.1, t.c + d2.2⟩ := coordEq hr hc
      refine padFold_visible hx ds _ (padStep_wf h) ?_
      rw [hxy]
      exact padStep_clears h (by rw [← hxy]; exact hx)
    · exact ih _ (padStep_wf h) ⟨d2, hmem, hr, hc⟩

/-- `padOne` is the guarded `padStep` fold over the nine offsets. -/
theorem padOne_eq {R C : Int} (los : LOSField) (u : Coord) :
    padOne R C los u =
      if (losGet los u).wavefront_blocked then
        padDeltas9.foldl (padStep R C u) los
      else los := rfl

theorem padOne_wf {R C : Int} {los : LOSField} {u : Coord}
    (h : gridWF R C los.field) : gridWF R C (padOne R C los u).field := by
  rw [padOne_eq]
  split
  · exact padFold_wf padDeltas9 los h
  · exact h

theorem padOne_blocked {R C : Int} {los : LOSField} {u x : Coord}
    (h : gridWF R C los.field) (hx : inBoundsB R C x = true) :
    (losGet (padOne R C los u) x).wavefront_blocked =
      (losGet los x).wavefront_blocked := by
  rw [padOne_eq]
  split
  · exact padFold_blocked hx padDeltas9 los h
  · rfl

theorem padOne_visible {R C : Int} {los : LOSField} {u x : Coord}
    (h : gridWF R C los.field) (hx : inBoundsB R C x = true)
    (hv : (losGet los x).visible = false) :
    (losGet (padOne R C los u) x).visible = false := by
  rw [padOne_eq]
  split
  · exact padFold_visible hx padDeltas9 los h hv
  · exact hv

theorem padOne_clears {R C : Int} {los : LOSField} {u x : Coord}
    (h : gridWF R C los.field)
    (hu : (losGet los u).wavefront_blocked = true) (hx : inBoundsB R C x = true)
    (hd : ∃ d ∈ padDeltas9, x.r = u.r + d.1 ∧ x.c = u.c + d.2) :
    (losGet (padOne R C los u) x).visible = false := by
  rw [padOne_eq, if_pos hu]
  exact padFold_clears hx padDeltas9 los h hd

theorem padPass_wf {R C : Int} :
    ∀ (cs : List Coord) (los : LOSField), gridWF R C los.field →
      gridWF R C (cs.foldl (padOne R C) los).field := by
  intro cs
  induction cs with
  | nil => exact fun los h => h
  | cons u cs ih =>
    intro los h
    rw [List.foldl_cons]
    exact ih _ (padOne_wf h)

theorem padPass_blocked {R C : Int} {x : Coord} (hx : inBoundsB R C x = true) :
    ∀ (cs : List Coord) (los : LOSField), gridWF R C los.field →
      (losGet (cs.foldl (padOne R C) los) x).wavefront_blocked =
        (losGet los x).wavefront_blocked := by
  intro cs
  induction cs with
  | nil => exact fun los _ => rfl
  | cons u cs ih =>
    intro los h
    rw [List.foldl_cons, ih _ (padOne_wf h), padOne_blocked h hx]

theorem padPass_visible {R C : Int} {x : Coord} (hx : inBoundsB R C x = true) :
    ∀ (cs : List Coord) (los : LOSField), gridWF R C los.field →
      (losGet los x).visible = false →
      (losGet (cs.foldl (padOne R C) los) x).visible = false := by
  intro cs
  induction cs with
  | nil => exact fun los _ h => h
  | cons u cs ih =>
    intro los h hv
    rw [List.foldl_cons]
    exact ih _ (padOne_wf h) (padOne_visible h hx hv)

/-- The padding invariant over any well-formed input LOS buffer: a cell
`wavefront_blocked` in the padded result forces `visible = false` on its
whole in-bounds 3x3 neighbourhood of the result. -/
theorem pad_wavefront_clears {R C : Int} {los0 : LOSField} {t x : Coord}
    (hwf : gridWF R C los0.field) (ht : inBoundsB R C t = true)
    (hx : inBoundsB R C x = true)
    (hnr : (x.r - t.r).natAbs ≤ 1) (hnc : (x.c - t.c).natAbs ≤ 1)
    (hb : (losGet (field_pad_wavefront R C los0) t).wavefront_blocked = true) :
    (losGet (field_pad_wavefront R C los0) x).visible = false := by
  obtain ⟨L1, L2, hsplit⟩ := List.append_of_mem (mem_allCoords.mpr ht)
  rw [field_pad_wavefront, hsplit, List.foldl_append, List.foldl_cons] at hb ⊢
  have hwf1 : gridWF R C (L1.foldl (padOne R C) los0).field :=
    padPass_wf L1 los0 hwf
  have hb2 : (losGet (padOne R C (L1.foldl (padOne R C) los0) t) t).wavefront_blocked
      = true := by
    rw [← padPass_blocked ht L2 _ (padOne_wf hwf1)]
    exact hb
  have hb1 : (losGet (L1.foldl (padOne R C) los0) t).wavefront_blocked = true := by
    rw [← padOne_blocked hwf1 ht]
    exact hb2
  have hmem : (x.r - t.r, x.c - t.c) ∈ padDeltas9 := by
    have h1 : x.r - t.r = -1 ∨ x.r - t.r = 0 ∨ x.r - t.r = 1 := by omega
    have h2 : x.c - t.c = -1 ∨ x.c - t.c = 0 ∨ x.c - t.c = 1 := by omega
    rcases h1 with h1 | h1 | h1 <;> rcases h2 with h2 | h2 | h2 <;>
      rw [h1, h2] <;> simp [padDeltas9]
  have hcl : (losGet (padOne R C (L1.foldl (padOne R C) los0) t) x).visible
      = false :=
    padOne_clears hwf1 hb1 hx
      ⟨(x.r - t.r, x.c - t.c), hmem,
        show x.r = t.r + (x.r - t.r) by omega,
        show x.c = t.c + (x.c - t.c) by omega⟩
  exact padPass_visible hx L2 _ (padOne_wf hwf1) hcl

/-! Well-formedness of the LOS grids through the wavefront pipeline. -/

theorem bresenhamWalk_wf {R C dx dy sx sy : Int} :
    ∀ (fuel : Nat) (err : Int) (curr : Coord) (los : LOSField),
      gridWF R C los.field →
      gridWF R C (bresenhamWalk R C dx dy sx sy fuel err curr los).field := by
  intro fuel
  induction fuel with
  | zero => exact fun _ _ _ h => h
  | succ fuel ih =>
    intro err curr los hwf
    rw [bresenhamWalk]
    have hgen : ∀ (b : Bool) (e2 : Int) (x2 : Coord) (los2 : LOSField),
        gridWF R C los2.field →
        gridWF R C (if b then bresenhamWalk R C dx dy sx sy fuel e2 x2 los2
          else los2).field := by
      intro b e2 x2 los2 h2
      cases b
      · exact h2
      · exact ih _ _ _ h2
    exact hgen _ _ _ (setBlocked los curr) (gridWF_set hwf)

theorem blocked_line_wf {R C : Int} {target corner : TileDesc} {los : LOSField}
    (h : gridWF R C los.field) :
    gridWF R C (field_create_wavefront_blocked_line R C target corner los).field := by
  rw [field_create_wavefront_blocked_line]
  exact bresenhamWalk_wf _ _ _ _ h

theorem losProcessNeighbour_wf {R C : Int} {chunk : NavChunk} {target : TileDesc}
    {cc : Coord} {s : LOSState} {curr : Coord} {nc : Coord × Nat}
    (h : gridWF R C s.los.field) :
    gridWF R C (losProcessNeighbour R C chunk target cc s curr nc).los.field := by
  rw [losProcessNeighbour]
  split_ifs
  · exact blocked_line_wf h
  · exact h
  all_goals (dsimp only; split <;> exact gridWF_set h)

theorem losStep_wf {R C : Int} {chunk : NavChunk} {fid : Int} {getE : Int → Nat}
    {target : TileDesc} {cc : Coord} {s s2 : LOSState}
    (hstep : losStep R C chunk fid getE target cc s = some s2)
    (h : gridWF R C s.los.field) : gridWF R C s2.los.field := by
  rw [losStep] at hstep
  split at hstep
  · cases hstep
  · rename_i pr curr rest heq
    cases hstep
    refine foldl_inv (fun (s3 : LOSState) => gridWF R C s3.los.field) _ _ ?_ _ h
    intro s3 nc _ h3
    exact losProcessNeighbour_wf h3

theorem losRun_wf {R C : Int} {chunk : NavChunk} {fid : Int} {getE : Int → Nat}
    {target : TileDesc} {cc : Coord} :
    ∀ (fuel : Nat) (s : LOSState), gridWF R C s.los.field →
      gridWF R C (losRun R C chunk fid getE target cc fuel s).los.field := by
  intro fuel
  induction fuel with
  | zero => exact fun s h => h
  | succ fuel ih =>
    intro s h
    rw [losRun]
    cases hstep : losStep R C chunk fid getE target cc s with
    | none => exact h
    | some s2 => exact ih s2 (losStep_wf hstep h)

theorem losCarryCell_wf {R C : Int} {target : TileDesc} {cc at1 : Coord}
    {cell : LOSCell} {s : LOSState} (h : gridWF R C s.los.field) :
    gridWF R C (losCarryCell R C target cc cell at1 s).los.field := by
  rw [losCarryCell]
  dsimp only
  split_ifs <;>
    first
    | exact blocked_line_wf (gridWF_set h)
    | exact gridWF_set h

theorem losSeedState_wf {R C : Int} {cc : Coord} {target : TileDesc}
    {prev : Option LOSField} {s0 : LOSState} (h : gridWF R C s0.los.field) :
    gridWF R C (losSeedState R C cc target prev s0).los.field := by
  rw [losSeedState.eq_def]
  split_ifs with h1
  · exact h
  · cases prev with
    | none => exact h
    | some prevf =>
      dsimp only
      split_ifs <;>
        first
        | exact h
        | exact foldl_inv (fun (s3 : LOSState) => gridWF R C s3.los.field) _ _
            (fun s3 j _ h3 => losCarryCell_wf h3) s0 h

/-! Claim theorems. -/

/-- C1: For every flow field produced by `N_FlowFieldUpdate` (or
`N_FlowFieldUpdateToNearestPathable`), and for every tile `t` whose
integration value is finite and strictly positive and whose direction was
set by flow derivation, the neighbour tile in the direction the output
field assigns to `t` has an integration value strictly less than that of
`t`.  Hypotheses: `C <= R` (the engine uses the square 64x64 resolution),
the spec's cost data model (`cost_base >= 1` everywhere), an in-bounds
initial frontier respectively start tile, and a well-formed flow buffer. -/
theorem C1_flow_direction_descends {R C : Int} {chunk : NavChunk} {fid : Int}
    {getE : Int → Nat} (hRC : C ≤ R) (hcost : ∀ x, 1 ≤ chunk.cost_base x) :
    (∀ (hasEnemy : Coord → Bool) (fuel : Nat) (target : FieldTarget)
        (flow0 : FlowField) (t : Coord) (v : Nat),
      (∀ x ∈ field_initial_frontier R C target chunk false fid getE hasEnemy,
        inBoundsB R C x = true) →
      gridWF R C flow0.field →
      inBoundsB R C t = true →
      gridGet none (N_FlowFieldUpdate_intf R C chunk fid getE hasEnemy fuel target) t
        = some v →
      0 < v →
      ∃ w, gridGet none (N_FlowFieldUpdate_intf R C chunk fid getE hasEnemy fuel target)
            (dirTile t (gridGet FlowDir.NONE
              (N_FlowFieldUpdate R C chunk fid getE hasEnemy fuel target flow0).field t))
          = some w ∧ w < v)
    ∧
    (∀ (start : Coord) (fuelBfs fuel : Nat) (flow0 : FlowField) (t : Coord) (v : Nat),
      inBoundsB R C start = true →
      gridWF R C flow0.field →
      inBoundsB R C t = true →
      gridGet none (N_FlowFieldUpdateToNearestPathable_intf R C chunk start fid getE
        fuelBfs fuel) t = some v →
      0 < v →
      ∃ w, gridGet none (N_FlowFieldUpdateToNearestPathable_intf R C chunk start fid getE
            fuelBfs fuel)
            (dirTile t (gridGet FlowDir.NONE
              (N_FlowFieldUpdateToNearestPathable R C chunk start fid getE
                fuelBfs fuel flow0).field t))
          = some w ∧ w < v) := by
  constructor
  · intro hasEnemy fuel target flow0 t v hseeds hwf htb hget hv
    have hinv : BInv R C (field_build_integration R C chunk fid getE fuel
        (initBState R C (field_initial_frontier R C target chunk false fid getE hasEnemy))) :=
      field_build_integration_inv hcost fuel _ (initBState_inv hseeds)
    have hdesc : descentInv R C
        (N_FlowFieldUpdate_intf R C chunk fid getE hasEnemy fuel target) := hinv.2.2
    obtain ⟨hne, w, hdir, hlt⟩ := flow_dir_descends hRC hdesc htb hget hv
    have hout : gridGet FlowDir.NONE
        (N_FlowFieldUpdate R C chunk fid getE hasEnemy fuel target flow0).field t =
        field_flow_dir R C (N_FlowFieldUpdate_intf R C chunk fid getE hasEnemy fuel target) t := by
      show gridGet FlowDir.NONE (field_fixup R C target _ (field_build_flow R C _ flow0.field) chunk) t = _
      rw [field_fixup_get_ne_zero (field_build_flow_wf hwf) htb
        (by rw [hget]; intro hc; cases hc; omega)]
      rw [field_build_flow_get hwf htb, hget]
      rcases v with _ | v
      · omega
      · rfl
    rw [hout]
    exact ⟨w, hdir, hlt⟩
  · intro start fuelBfs fuel flow0 t v hstart hwf htb hget hv
    have hinv : BInv R C (field_build_integration_nonpass R C chunk fid getE fuel
        (initBState R C (field_passable_frontier R C chunk start fuelBfs))) :=
      field_build_integration_nonpass_inv hcost fuel _
        (initBState_inv (field_passable_frontier_inBounds hstart))
    have hdesc : descentInv R C
        (N_FlowFieldUpdateToNearestPathable_intf R C chunk start fid getE fuelBfs fuel) :=
      hinv.2.2
    obtain ⟨hne, w, hdir, hlt⟩ := flow_dir_descends hRC hdesc htb hget hv
    have hout : gridGet FlowDir.NONE
        (N_FlowFieldUpdateToNearestPathable R C chunk start fid getE fuelBfs fuel flow0).field t =
        field_flow_dir R C
          (N_FlowFieldUpdateToNearestPathable_intf R C chunk start fid getE fuelBfs fuel) t := by
      show gridGet FlowDir.NONE (writeCells _ flow0.field (allCoords R C)) t = _
      rcases v with _ | v
      · omega
      · refine writeCells_get_mem hwf (fun x hx => mem_allCoords.mp hx)
          (mem_allCoords.mpr htb) ?_
        rw [hget]
        rfl
    rw [hout]
    exact ⟨w, hdir, hlt⟩

/-- Witness for C1 on concrete inputs: an open 3x3 chunk with a tile
target at (0,0) for the `N_FlowFieldUpdate` part, and a 3x3 chunk whose
centre is impassable with `start = (1,1)` for the nearest-pathable part. -/
theorem C1_flow_direction_descends_witness :
    (∃ w, gridGet none (N_FlowFieldUpdate_intf 3 3 chunkOpen3 FACTION_ID_NONE
          (fun _ => 0) (fun _ => false) 60 (.tile ⟨0, 0⟩))
          (dirTile ⟨0, 1⟩ (gridGet FlowDir.NONE
            (N_FlowFieldUpdate 3 3 chunkOpen3 FACTION_ID_NONE (fun _ => 0)
              (fun _ => false) 60 (.tile ⟨0, 0⟩)
              { chunk := ⟨0, 0⟩, target := none, field := gridInit 3 3 .NONE }).field
            ⟨0, 1⟩))
        = some w ∧ w < 1)
    ∧
    (∃ w, gridGet none (N_FlowFieldUpdateToNearestPathable_intf 3 3 chunkSingleBlock3
          ⟨1, 1⟩ FACTION_ID_NONE (fun _ => 0) 60 60)
          (dirTile ⟨1, 1⟩ (gridGet FlowDir.NONE
            (N_FlowFieldUpdateToNearestPathable 3 3 chunkSingleBlock3 ⟨1, 1⟩
              FACTION_ID_NONE (fun _ => 0) 60 60
              { chunk := ⟨0, 0⟩, target := none, field := gridInit 3 3 .NONE }).field
            ⟨1, 1⟩))
        = some w ∧ w < 255) := by
  have hcost1 : ∀ x, 1 ≤ chunkOpen3.cost_base x := fun x => le_refl 1
  have hcost2 : ∀ x, 1 ≤ chunkSingleBlock3.cost_base x := by
    intro x
    simp only [chunkSingleBlock3]
    split <;> omega
  constructor
  · exact (C1_flow_direction_descends (by omega) hcost1).1 (fun _ => false) 60
      (.tile ⟨0, 0⟩) { chunk := ⟨0, 0⟩, target := none, field := gridInit 3 3 .NONE }
      ⟨0, 1⟩ 1 (by decide) gridWF_init (by decide) (by rfl) (by omega)
  · exact (C1_flow_direction_descends (by omega) hcost2).2 ⟨1, 1⟩ 60 60
      { chunk := ⟨0, 0⟩, target := none, field := gridInit 3 3 .NONE }
      ⟨1, 1⟩ 255 (by decide) gridWF_init (by decide) (by rfl) (by omega)

/-- C10: the `assert(min_cost < INFINITY)` in `field_flow_dir` never
fires.  For every integration field produced by `field_build_integration`
or `field_build_integration_nonpass` from an in-bounds seed frontier
(under the spec's cost data model), every in-bounds tile with finite,
strictly positive integration has an in-bounds 4-neighbour with finite
integration — the neighbour minimum is finite — and `field_flow_dir`
returns a real direction there (given `C <= R`; the engine is square). -/
theorem C10_flow_dir_assert_never_fires {R C : Int} {chunk : NavChunk}
    {fid : Int} {getE : Int → Nat} (hRC : C ≤ R)
    (hcost : ∀ x, 1 ≤ chunk.cost_base x) :
    ∀ (seeds : List Coord) (fuel : Nat) (t : Coord) (v : Nat),
      (∀ x ∈ seeds, inBoundsB R C x = true) →
      inBoundsB R C t = true →
      ((gridGet none (field_build_integration R C chunk fid getE fuel
          (initBState R C seeds)).intf t = some v → 0 < v →
        minCostOf R C (field_build_integration R C chunk fid getE fuel
          (initBState R C seeds)).intf t ≠ none ∧
        field_flow_dir R C (field_build_integration R C chunk fid getE fuel
          (initBState R C seeds)).intf t ≠ .NONE)
      ∧
      (gridGet none (field_build_integration_nonpass R C chunk fid getE fuel
          (initBState R C seeds)).intf t = some v → 0 < v →
        minCostOf R C (field_build_integration_nonpass R C chunk fid getE fuel
          (initBState R C seeds)).intf t ≠ none ∧
        field_flow_dir R C (field_build_integration_nonpass R C chunk fid getE fuel
          (initBState R C seeds)).intf t ≠ .NONE)) := by
  intro seeds fuel t v hseeds htb
  have core : ∀ (intf : Grid (Option Nat)), descentInv R C intf →
      gridGet none intf t = some v → 0 < v →
      minCostOf R C intf t ≠ none ∧ field_flow_dir R C intf t ≠ .NONE := by
    intro intf hdesc hget hv
    obtain ⟨m, vm, hmem, hmb, hmg, hlt⟩ := hdesc t v htb hget hv
    have hle : oLEb (minCostOf R C intf t) (some vm) := by
      rw [mem_cardNeighbours_iff] at hmem
      rw [inBoundsB_iff] at hmb
      rcases hmem with rfl | rfl | rfl | rfl <;> dsimp only at hmb
      · have h := (@minCostOf_le_card R C intf t).1
          (by omega)
        rw [hmg] at h
        exact h
      · have h := (@minCostOf_le_card R C intf t).2.2.1
          (by omega)
        rw [hmg] at h
        exact h
      · have h := (@minCostOf_le_card R C intf t).2.2.2
          (by omega)
        rw [hmg] at h
        exact h
      · have h := (@minCostOf_le_card R C intf t).2.1
          (by omega)
        rw [hmg] at h
        exact h
    obtain ⟨w, hmw, _⟩ := oLEb_some hle
    exact ⟨(by rw [hmw]; intro hc; cases hc), (field_flow_dir_spec hRC hmw).1⟩
  constructor
  · intro hget hv
    exact core _ (field_build_integration_inv hcost fuel _ (initBState_inv hseeds)).2.2
      hget hv
  · intro hget hv
    exact core _
      (field_build_integration_nonpass_inv hcost fuel _ (initBState_inv hseeds)).2.2
      hget hv

/-- Witness for C10 on a concrete open 3x3 chunk seeded at (0,0). -/
theorem C10_flow_dir_assert_never_fires_witness :
    minCostOf 3 3 (field_build_integration 3 3 chunkOpen3 FACTION_ID_NONE
        (fun _ => 0) 60 (initBState 3 3 [⟨0, 0⟩])).intf ⟨0, 1⟩ ≠ none ∧
    field_flow_dir 3 3 (field_build_integration 3 3 chunkOpen3 FACTION_ID_NONE
        (fun _ => 0) 60 (initBState 3 3 [⟨0, 0⟩])).intf ⟨0, 1⟩ ≠ .NONE := by
  have h := (@C10_flow_dir_assert_never_fires 3 3 chunkOpen3 FACTION_ID_NONE
    (fun _ => 0) (by omega)
    (fun x => le_refl 1) [⟨0, 0⟩] 60 ⟨0, 1⟩ 1 (by decide) (by decide)).1
  exact h (by rfl) (by omega)

set_option maxRecDepth 100000 in
/-- C6: on an 8x8 field with cost 1 everywhere and no blockers,
`N_LOSFieldCreate` invoked on the destination chunk with target tile (7,7)
marks every tile of the resulting LOS field visible (the target tile
included) and leaves no tile `wavefront_blocked`. -/
theorem C6_open_8x8_all_visible :
    ((allCoords 8 8).all fun t =>
      (losGet losOpen8 t).visible && !(losGet losOpen8 t).wavefront_blocked) = true := by
  rfl

/-- Counterexample to C2 as stated: on `intfDiagCE` (the integration field
`N_FlowFieldUpdate` builds over `chunkDiagCE` toward tile (4,2)),
`field_flow_dir` assigns the diagonal `NW` at (4,4) while the cardinal
neighbour (3,4) sharing the `NW` corner has INFINITY integration: the
selection chain of `field_flow_dir` does not re-check the corner guards
that the minimum scan used. -/
theorem C2_diag_corner_counterexample :
    field_flow_dir 8 8 intfDiagCE ⟨4, 4⟩ = FlowDir.NW ∧
    gridGet none intfDiagCE ⟨3, 4⟩ = none :=
  ⟨rfl, rfl⟩

/-- C2, amended: a diagonal direction is only assigned when the diagonal
tile holds the neighbour minimum, and that minimum is attained by some
admissible candidate (a cardinal in-bounds neighbour, or a diagonal whose
own two flanking cardinals are finite) — but the two cardinals flanking
the returned diagonal itself need not be finite. -/
theorem C2_diagonal_min_admissible {R C : Int} {intf : Grid (Option Nat)}
    {t : Coord} (hd : isDiagonal (field_flow_dir R C intf t) = true) :
    ∃ w, gridGet none intf (dirTile t (field_flow_dir R C intf t)) = some w ∧
      admissibleAttains R C intf t w := by
  obtain ⟨w, _, h2, h3⟩ := field_flow_dir_diag hd
  exact ⟨w, h2, h3⟩

/-- Witness for C2's amended theorem at the diagonal assignment of
`intfDiagCE` at (4,4). -/
theorem C2_diagonal_min_admissible_witness :
    isDiagonal (field_flow_dir 8 8 intfDiagCE ⟨4, 4⟩) = true ∧
    ∃ w, gridGet none intfDiagCE
        (dirTile ⟨4, 4⟩ (field_flow_dir 8 8 intfDiagCE ⟨4, 4⟩)) = some w ∧
      admissibleAttains 8 8 intfDiagCE ⟨4, 4⟩ w :=
  ⟨rfl, C2_diagonal_min_admissible rfl⟩

/-- Counterexample to C4 as stated: tile (1,1) of `chunkBlockerNoFaction`
has a blocker count of 1 and no faction occupies it, yet the code treats
it as passable for faction 0's query (the `enemies_only` test of
`field_tile_passable_no_enemies` is vacuously true on an unoccupied tile),
while the claimed predicate rules it impassable. -/
theorem C4_passability_counterexample :
    passableFor chunkBlockerNoFaction ⟨1, 1⟩ 1 (fun _ => 0) = true ∧
    chunkBlockerNoFaction.blockers ⟨1, 1⟩ = 1 ∧
    ((List.range MAX_FACTIONS).all fun i =>
      !(chunkBlockerNoFaction.factions i ⟨1, 1⟩)) = true ∧
    claimedPassable chunkBlockerNoFaction ⟨1, 1⟩ 1 (fun _ => 0) = false := by
  decide

/-- C4, amended: with `faction_id == FACTION_ID_NONE` a tile is passable
iff its cost is not IMPASSABLE and it has no blockers; with a real faction
id the blockers test is instead short-circuited whenever every faction
occupying the tile is an enemy — vacuously including tiles no faction
occupies at all, so any unblocked-by-occupancy tile with blockers also
counts as passable. -/
theorem C4_passability_characterization (chunk : NavChunk) (tile : Coord)
    (faction_id : Int) (getEnemies : Int → Nat) :
    passableFor chunk tile faction_id getEnemies =
      (!(chunk.cost_base tile == COST_IMPASSABLE) &&
        (if faction_id = FACTION_ID_NONE then chunk.blockers tile == 0
         else ((List.range MAX_FACTIONS).all fun i =>
                 !(chunk.factions i tile) || (getEnemies faction_id).testBit i)
              || chunk.blockers tile == 0)) := by
  cases heo : (List.range MAX_FACTIONS).all fun i =>
      !(chunk.factions i tile) || (getEnemies faction_id).testBit i <;>
    simp only [passableFor, field_tile_passable, field_tile_passable_no_enemies, heo] <;>
    split_ifs <;> simp_all <;> omega

/-- C9: a tile whose integration stays INFINITY is left with exactly the
direction the buffer held on entry, under both `N_FlowFieldUpdate` and
`N_FlowFieldUpdateToNearestPathable`; and on a chunk whose every tile is
impassable, `N_FlowFieldUpdateToNearestPathable` returns the input flow
field unchanged. -/
theorem C9_unreached_tiles_keep_buffer_dirs {R C : Int} {chunk : NavChunk}
    {fid : Int} {getE : Int → Nat} :
    (∀ (hasEnemy : Coord → Bool) (fuel : Nat) (target : FieldTarget)
        (flow0 : FlowField) (t : Coord),
      gridWF R C flow0.field → inBoundsB R C t = true →
      gridGet none (N_FlowFieldUpdate_intf R C chunk fid getE hasEnemy fuel target) t
        = none →
      gridGet FlowDir.NONE
          (N_FlowFieldUpdate R C chunk fid getE hasEnemy fuel target flow0).field t
        = gridGet FlowDir.NONE flow0.field t)
    ∧
    (∀ (start : Coord) (fuelBfs fuel : Nat) (flow0 : FlowField) (t : Coord),
      gridWF R C flow0.field → inBoundsB R C t = true →
      gridGet none (N_FlowFieldUpdateToNearestPathable_intf R C chunk start fid getE
        fuelBfs fuel) t = none →
      gridGet FlowDir.NONE
          (N_FlowFieldUpdateToNearestPathable R C chunk start fid getE fuelBfs fuel
            flow0).field t
        = gridGet FlowDir.NONE flow0.field t)
    ∧
    ((∀ x, field_tile_passable chunk x = false) →
      ∀ (start : Coord) (fuelBfs fuel : Nat) (flow0 : FlowField),
        inBoundsB R C start = true →
        N_FlowFieldUpdateToNearestPathable R C chunk start fid getE fuelBfs fuel flow0
          = flow0) := by
  refine ⟨?_, ?_, ?_⟩
  · intro hasEnemy fuel target flow0 t hwf htb hnone
    show gridGet FlowDir.NONE
      (field_fixup R C target _ (field_build_flow R C _ flow0.field) chunk) t = _
    rw [field_fixup_get_ne_zero (field_build_flow_wf hwf) htb
      (by rw [hnone]; intro hc; cases hc)]
    rw [field_build_flow_get hwf htb, hnone]
  · intro start fuelBfs fuel flow0 t hwf htb hnone
    show gridGet FlowDir.NONE (writeCells _ flow0.field (allCoords R C)) t = _
    refine writeCells_get_none (fun x hx => mem_allCoords.mp hx) htb ?_
    rw [hnone]
  · intro hall start fuelBfs fuel flow0 hstart
    have hfront : field_passable_frontier R C chunk start fuelBfs = [] :=
      passableFrontierRun_nil (fun x _ => hall x) fuelBfs _
        (fun x hx => by rcases List.mem_singleton.mp hx with rfl; exact hstart) rfl
    have hintf : N_FlowFieldUpdateToNearestPathable_intf R C chunk start fid getE
        fuelBfs fuel = gridInit R C none := by
      rw [N_FlowFieldUpdateToNearestPathable_intf, hfront]
      rw [show initBState R C [] = { intf := gridInit R C none, queue := [] } from rfl]
      rw [field_build_integration_nonpass_empty]
    show { flow0 with field := writeCells _ flow0.field (allCoords R C) } = flow0
    rw [hintf]
    rw [writeCells_nil_payload (fun x hx => by
      rw [gridGet_init (mem_allCoords.mp hx)])]

/-- Witness for C9: on the 3x3 chunk with an impassable centre and a tile
target at (0,0) the unreached centre keeps the `SE` the buffer held; on
the all-impassable 3x3 chunk the tile (0,2) keeps its buffer direction and
the whole nearest-pathable update is the identity. -/
theorem C9_unreached_tiles_keep_buffer_dirs_witness :
    (gridGet FlowDir.NONE
        (N_FlowFieldUpdate 3 3 chunkSingleBlock3 FACTION_ID_NONE (fun _ => 0)
          (fun _ => false) 60 (.tile ⟨0, 0⟩) flowBufSE3).field ⟨1, 1⟩
      = gridGet FlowDir.NONE flowBufSE3.field ⟨1, 1⟩)
    ∧
    (gridGet FlowDir.NONE
        (N_FlowFieldUpdateToNearestPathable 3 3 chunkBlocked3 ⟨1, 1⟩ FACTION_ID_NONE
          (fun _ => 0) 60 60 flowBufSE3).field ⟨0, 2⟩
      = gridGet FlowDir.NONE flowBufSE3.field ⟨0, 2⟩)
    ∧
    (N_FlowFieldUpdateToNearestPathable 3 3 chunkBlocked3 ⟨1, 1⟩ FACTION_ID_NONE
        (fun _ => 0) 60 60 flowBufSE3 = flowBufSE3) := by
  have hwf : gridWF 3 3 flowBufSE3.field := gridWF_set gridWF_init
  refine ⟨?_, ?_, ?_⟩
  · exact (C9_unreached_tiles_keep_buffer_dirs).1 (fun _ => false) 60 (.tile ⟨0, 0⟩)
      flowBufSE3 ⟨1, 1⟩ hwf (by decide) (by rfl)
  · exact (C9_unreached_tiles_keep_buffer_dirs).2.1 ⟨1, 1⟩ 60 60 flowBufSE3 ⟨0, 2⟩
      hwf (by decide) (by rfl)
  · exact (@C9_unreached_tiles_keep_buffer_dirs 3 3 chunkBlocked3 FACTION_ID_NONE
      (fun _ => 0)).2.2 (fun x => rfl) ⟨1, 1⟩ 60 60
      flowBufSE3 (by decide)

/-- Counterexample to C8 as stated: with a PORTAL_MASK selecting both the
north portal and the east portal of `chunkTwoPortals`, the fix-up pass of
the east portal (the last selected) rewrites every integration-0 tile,
including the north portal's seed (0,3), whose direction ends as `E` —
not the `N` that points toward the north portal's connected chunk. -/
theorem C8_portalmask_counterexample :
    gridGet FlowDir.NONE flowTwoPortals.field ⟨0, 3⟩ = FlowDir.E ∧
    Nat.testBit 3 0 = true ∧
    chunkTwoPortals.portals[0]? = some portalNorth ∧
    portalNorth.connected_chunk.r < portalNorth.chunk.r ∧
    portalEdgeDir portalNorth = some FlowDir.N ∧
    gridGet none (N_FlowFieldUpdate_intf 8 8 chunkTwoPortals FACTION_ID_NONE
      (fun _ => 0) (fun _ => false) 300 (.portalmask 3)) ⟨0, 3⟩ = some 0 :=
  ⟨rfl, rfl, rfl, by decide, rfl, rfl⟩

/-- C8, amended: for a single PORTAL target whose connected chunk differs
from the portal's own chunk, every tile with integration value 0 (the
portal seeds among them) ends with the cardinal direction pointing across
the boundary toward the connected chunk.  Under a PORTAL_MASK the fix-up
passes run in ascending portal order over the same integration field, so
only the last selected portal's redirection survives on shared zero
tiles — as the counterexample shows. -/
theorem C8_portal_seed_redirect {R C : Int} {chunk : NavChunk} {fid : Int}
    {getE : Int → Nat} {hasEnemy : Coord → Bool} {fuel : Nat} {p : Portal}
    {flow0 : FlowField} {t : Coord}
    (hwf : gridWF R C flow0.field) (ht : inBoundsB R C t = true)
    (hne : p.connected_chunk.r ≠ p.chunk.r ∨ p.connected_chunk.c ≠ p.chunk.c)
    (h0 : gridGet none
      (N_FlowFieldUpdate_intf R C chunk fid getE hasEnemy fuel (.portal p)) t
      = some 0) :
    gridGet FlowDir.NONE
        (N_FlowFieldUpdate R C chunk fid getE hasEnemy fuel (.portal p) flow0).field t
      = (if p.connected_chunk.r < p.chunk.r then FlowDir.N
         else if p.connected_chunk.r > p.chunk.r then FlowDir.S
         else if p.connected_chunk.c < p.chunk.c then FlowDir.W
         else FlowDir.E) := by
  have hdir : portalEdgeDir p =
      some (if p.connected_chunk.r < p.chunk.r then FlowDir.N
            else if p.connected_chunk.r > p.chunk.r then FlowDir.S
            else if p.connected_chunk.c < p.chunk.c then FlowDir.W
            else FlowDir.E) := by
    rw [portalEdgeDir]
    split_ifs <;> first | rfl | omega
  show gridGet FlowDir.NONE
    (field_fixup R C (.portal p) _ (field_build_flow R C _ flow0.field) chunk) t = _
  rw [field_fixup, field_fixup_portal_edges_get (field_build_flow_wf hwf) ht,
    if_pos h0, hdir]

/-- Witness for C8's amended theorem: under the single north-portal target
on `chunkTwoPortals`, the seed (0,3) ends pointing `N`, toward the
connected chunk above. -/
theorem C8_portal_seed_redirect_witness :
    gridGet FlowDir.NONE flowPortalNorth.field ⟨0, 3⟩ = FlowDir.N := by
  have h := @C8_portal_seed_redirect 8 8 chunkTwoPortals FACTION_ID_NONE
    (fun _ => 0) (fun _ => false) 300 portalNorth
    { chunk := ⟨1, 1⟩, target := none, field := gridInit 8 8 .NONE }
    ⟨0, 3⟩ gridWF_init (by decide) (by decide) (by rfl)
  exact h.trans (by decide)

set_option maxRecDepth 100000 in
/-- Counterexample to C3 as stated: tile (0,1) of `chunkCost2` has base
cost 2, is not IMPASSABLE and has no blockers — yet the LOS wavefront of
`N_LOSFieldCreate` (target (0,0), which pops (0,0) and visits (0,1))
treats it as blocked: the branch tests `cost > 1`, not impassability, so
(0,1) is never marked visible even though no tile is `wavefront_blocked`
anywhere in the result. -/
theorem C3_los_blocked_branch_counterexample :
    chunkCost2.cost_base ⟨0, 1⟩ = 2 ∧
    chunkCost2.blockers ⟨0, 1⟩ = 0 ∧
    field_tile_passable chunkCost2 ⟨0, 1⟩ = true ∧
    (losGet losCost2 ⟨0, 1⟩).visible = false ∧
    ((allCoords 8 8).all fun t => !(losGet losCost2 t).wavefront_blocked) = true :=
  ⟨rfl, rfl, rfl, rfl, rfl⟩

/-- C3, amended: for every entry of `field_neighbours_grid_los` the
wavefront's blocked branch fires iff the neighbour's cost exceeds 1 —
equivalently, iff the neighbour is not passable for the faction or its
base cost exceeds 1 (not iff it is impassable, as claimed).  On that
branch the integration and the queue are untouched and, unless the
neighbour is a LOS corner, the whole state is; on the other branch the
neighbour is marked visible. -/
theorem C3_los_blocked_branch {R C : Int} {chunk : NavChunk} {los : LOSField}
    {fid : Int} {getE : Int → Nat} {coord n : Coord} {cost : Nat}
    (hmem : (n, cost) ∈ field_neighbours_grid_los R C chunk los fid getE coord) :
    (1 < cost ↔ (passableFor chunk n fid getE = false ∨ 1 < chunk.cost_base n)) ∧
    ∀ (target : TileDesc) (cc : Coord) (s : LOSState) (curr : Coord),
      (1 < cost →
        (losProcessNeighbour R C chunk target cc s curr (n, cost)).intf = s.intf ∧
        (losProcessNeighbour R C chunk target cc s curr (n, cost)).queue = s.queue ∧
        (field_is_los_corner R C n chunk.cost_base chunk.blockers = false →
          losProcessNeighbour R C chunk target cc s curr (n, cost) = s)) ∧
      (cost ≤ 1 →
        (losProcessNeighbour R C chunk target cc s curr (n, cost)).los =
          setVisible s.los n) := by
  obtain ⟨hb, hcn, hblk, hk⟩ := mem_field_neighbours_grid_los hmem
  constructor
  · cases hpv : passableFor chunk n fid getE with
    | false =>
      rw [hk, hpv]
      simp [COST_IMPASSABLE]
    | true =>
      rw [hk, hpv]
      simp
  · intro target cc s curr
    constructor
    · intro hgt
      have e : losProcessNeighbour R C chunk target cc s curr (n, cost) =
          if field_is_los_corner R C n chunk.cost_base chunk.blockers then
            { s with los := (field_create_wavefront_blocked_line R C target
                ⟨cc.r, cc.c, n.r, n.c⟩ s.los) }
          else s := by
        simp only [losProcessNeighbour]
        rw [if_pos hgt]
      refine ⟨?_, ?_, ?_⟩
      · rw [e]
        split_ifs <;> rfl
      · rw [e]
        split_ifs <;> rfl
      · intro hcf
        rw [e, hcf]
        simp
    · intro hle
      have hngt : ¬((n, cost).2 > 1) := by simpa using hle
      simp only [losProcessNeighbour]
      rw [if_neg hngt]
      split_ifs <;> rfl

/-- Witness for C3's amended theorem at the concrete neighbour (0,1) of
(0,0) on `chunkCost2` (cost 2): the branch condition holds through the
amended right-hand side, and the blocked branch leaves the integration
field untouched. -/
theorem C3_los_blocked_branch_witness :
    ((1 : Nat) < 2 ↔
      (passableFor chunkCost2 ⟨0, 1⟩ FACTION_ID_NONE (fun _ => 0) = false ∨
        1 < chunkCost2.cost_base ⟨0, 1⟩)) ∧
    (losProcessNeighbour 8 8 chunkCost2 ⟨0, 0, 0, 0⟩ ⟨0, 0⟩ losState0 ⟨0, 0⟩
        (⟨0, 1⟩, 2)).intf = losState0.intf := by
  have h := @C3_los_blocked_branch 8 8 chunkCost2 losState0.los FACTION_ID_NONE
    (fun _ => 0) ⟨0, 0⟩ ⟨0, 1⟩ 2 (by decide)
  exact ⟨h.1, ((h.2 ⟨0, 0, 0, 0⟩ ⟨0, 0⟩ losState0 ⟨0, 0⟩).1 (by omega)).1⟩

/-- Counterexample to C5 as stated: two PORTAL_MASK targets with
different masks, and two ENEMIES targets differing only in the descriptor's
chunk, produce identical identities (`N_FlowField_ID` hits its
`assert(0); return 0` arm for PORTAL_MASK and never encodes the enemies
chunk), so the function is not injective over (layer, target, chunk) with
targets compared structurally. -/
theorem C5_flow_field_id_counterexample :
    N_FlowField_ID ⟨0, 0⟩ (.portalmask 1) 0 = N_FlowField_ID ⟨0, 0⟩ (.portalmask 2) 0 ∧
    FieldTarget.portalmask 1 ≠ FieldTarget.portalmask 2 ∧
    N_FlowField_ID ⟨0, 0⟩ (.enemies ⟨⟨0, 0⟩, 1⟩) 0
      = N_FlowField_ID ⟨0, 0⟩ (.enemies ⟨⟨1, 1⟩, 1⟩) 0 ∧
    EnemiesDesc.mk ⟨0, 0⟩ 1 ≠ EnemiesDesc.mk ⟨1, 1⟩ 1 :=
  ⟨rfl, by decide, rfl, by decide⟩

/-- C5, amended: within the engine's value ranges (`idInputBounds`) and
away from the PORTAL_MASK arm, `N_FlowField_ID` is injective over the
layer, the chunk coordinate and the components of the target it actually
encodes (`sameEncodedTarget`): equal identities force equal layers, equal
chunks, equal target types and equal encoded payloads. -/
theorem C5_flow_field_id_injective {c1 c2 : Coord} {t1 t2 : FieldTarget} {l1 l2 : Nat}
    (h1 : idInputBounds c1 t1 l1) (h2 : idInputBounds c2 t2 l2)
    (hm1 : targetTypeTag t1 ≠ 2) (hm2 : targetTypeTag t2 ≠ 2)
    (heq : N_FlowField_ID c1 t1 l1 = N_FlowField_ID c2 t2 l2) :
    l1 = l2 ∧ c1 = c2 ∧ sameEncodedTarget t1 t2 := by
  rcases t1 with t | p | m | e
  case portalmask => exact absurd rfl hm1
  all_goals rcases t2 with t2t | p2 | m2 | e2
  case tile.portalmask => exact absurd rfl hm2
  case portal.portalmask => exact absurd rfl hm2
  case enemies.portalmask => exact absurd rfl hm2
  all_goals
    obtain ⟨g1, g2⟩ : idInputBounds c1 _ l1 ∧ idInputBounds c2 _ l2 := ⟨h1, h2⟩
  case tile.tile =>
    obtain ⟨hl, hcr0, hcr1, hcc0, hcc1, htr0, htr1, htc0, htc1⟩ := g1
    obtain ⟨hl2, hcr02, hcr12, hcc02, hcc12, htr02, htr12, htc02, htc12⟩ := g2
    have hA : t.r.toNat < 256 := by omega
    have hB : t.c.toNat < 256 := by omega
    have hC : c1.r.toNat < 256 := by omega
    have hD : c1.c.toNat < 256 := by omega
    have hU : t2t.r.toNat < 256 := by omega
    have hV : t2t.c.toNat < 256 := by omega
    have hW : c2.r.toNat < 256 := by omega
    have hX : c2.c.toNat < 256 := by omega
    have heq2 : l1 * 2 ^ 60 + t.r.toNat * 2 ^ 24 + t.c.toNat * 2 ^ 16 +
        c1.r.toNat * 2 ^ 8 + c1.c.toNat
        = l2 * 2 ^ 60 + t2t.r.toNat * 2 ^ 24 + t2t.c.toNat * 2 ^ 16 +
          c2.r.toNat * 2 ^ 8 + c2.c.toNat := by
      rw [← flowFieldID_tile h1, ← flowFieldID_tile h2]
      exact heq
    have key := idDigits_tile_tile hA hB hC hD hU hV hW hX heq2
    clear heq heq2
    refine ⟨key.1, ?_, ?_⟩
    · calc c1 = ⟨c1.r, c1.c⟩ := rfl
        _ = ⟨c2.r, c2.c⟩ := coordEq (by omega) (by omega)
        _ = c2 := rfl
    · show t = t2t
      calc t = ⟨t.r, t.c⟩ := rfl
        _ = ⟨t2t.r, t2t.c⟩ := coordEq (by omega) (by omega)
        _ = t2t := rfl
  case portal.portal =>
    obtain ⟨hl, hcr0, hcr1, hcc0, hcc1, h0r0, h0r1, h0c0, h0c1, h1r0, h1r1, h1c0, h1c1⟩ := g1
    obtain ⟨hl2, hcr02, hcr12, hcc02, hcc12, h0r02, h0r12, h0c02, h0c12, h1r02, h1r12, h1c02, h1c12⟩ := g2
    have hA : p.ep0.r.toNat < 256 := by omega
    have hB : p.ep0.c.toNat < 256 := by omega
    have hC : p.ep1.r.toNat < 256 := by omega
    have hD : p.ep1.c.toNat < 256 := by omega
    have hE : c1.r.toNat < 256 := by omega
    have hF : c1.c.toNat < 256 := by omega
    have hU : p2.ep0.r.toNat < 256 := by omega
    have hV : p2.ep0.c.toNat < 256 := by omega
    have hW : p2.ep1.r.toNat < 256 := by omega
    have hX : p2.ep1.c.toNat < 256 := by omega
    have hY : c2.r.toNat < 256 := by omega
    have hZ : c2.c.toNat < 256 := by omega
    have heq2 : l1 * 2 ^ 60 + 2 ^ 56 + p.ep0.r.toNat * 2 ^ 40 +
        p.ep0.c.toNat * 2 ^ 32 + p.ep1.r.toNat * 2 ^ 24 + p.ep1.c.toNat * 2 ^ 16 +
        c1.r.toNat * 2 ^ 8 + c1.c.toNat
        = l2 * 2 ^ 60 + 2 ^ 56 + p2.ep0.r.toNat * 2 ^ 40 +
          p2.ep0.c.toNat * 2 ^ 32 + p2.ep1.r.toNat * 2 ^ 24 +
          p2.ep1.c.toNat * 2 ^ 16 + c2.r.toNat * 2 ^ 8 + c2.c.toNat := by
      rw [← flowFieldID_portal h1, ← flowFieldID_portal h2]
      exact heq
    have key := idDigits_portal_portal hA hB hC hD hE hF hU hV hW hX hY hZ heq2
    clear heq heq2
    refine ⟨key.1, ?_, ?_, ?_⟩
    · calc c1 = ⟨c1.r, c1.c⟩ := rfl
        _ = ⟨c2.r, c2.c⟩ := coordEq (by omega) (by omega)
        _ = c2 := rfl
    · show p.ep0 = p2.ep0
      calc p.ep0 = ⟨p.ep0.r, p.ep0.c⟩ := rfl
        _ = ⟨p2.ep0.r, p2.ep0.c⟩ := coordEq (by omega) (by omega)
        _ = p2.ep0 := rfl
    · show p.ep1 = p2.ep1
      calc p.ep1 = ⟨p.ep1.r, p.ep1.c⟩ := rfl
        _ = ⟨p2.ep1.r, p2.ep1.c⟩ := coordEq (by omega) (by omega)
        _ = p2.ep1 := rfl
  case enemies.enemies =>
    obtain ⟨hl, hcr0, hcr1, hcc0, hcc1, hf0, hf1⟩ := g1
    obtain ⟨hl2, hcr02, hcr12, hcc02, hcc12, hf02, hf12⟩ := g2
    have hA : e.faction_id.toNat < 2 ^ 32 := by omega
    have hC : c1.r.toNat < 256 := by omega
    have hD : c1.c.toNat < 256 := by omega
    have hU : e2.faction_id.toNat < 2 ^ 32 := by omega
    have hW : c2.r.toNat < 256 := by omega
    have hX : c2.c.toNat < 256 := by omega
    have heq2 : l1 * 2 ^ 60 + 3 * 2 ^ 56 + e.faction_id.toNat * 2 ^ 24 +
        c1.r.toNat * 2 ^ 8 + c1.c.toNat
        = l2 * 2 ^ 60 + 3 * 2 ^ 56 + e2.faction_id.toNat * 2 ^ 24 +
          c2.r.toNat * 2 ^ 8 + c2.c.toNat := by
      rw [← flowFieldID_enemies h1, ← flowFieldID_enemies h2]
      exact heq
    have key := idDigits_enemies_enemies hA hU hC hD hW hX heq2
    clear heq heq2
    refine ⟨key.1, ?_, ?_⟩
    · calc c1 = ⟨c1.r, c1.c⟩ := rfl
        _ = ⟨c2.r, c2.c⟩ := coordEq (by omega) (by omega)
        _ = c2 := rfl
    · show e.faction_id = e2.faction_id
      omega
  case tile.portal =>
    obtain ⟨hl, hcr0, hcr1, hcc0, hcc1, htr0, htr1, htc0, htc1⟩ := g1
    obtain ⟨hl2, hcr02, hcr12, hcc02, hcc12, h0r02, h0r12, h0c02, h0c12, h1r02, h1r12, h1c02, h1c12⟩ := g2
    have hA : t.r.toNat < 256 := by omega
    have hB : t.c.toNat < 256 := by omega
    have hC : c1.r.toNat < 256 := by omega
    have hD : c1.c.toNat < 256 := by omega
    have hU : p2.ep0.r.toNat < 256 := by omega
    have hV : p2.ep0.c.toNat < 256 := by omega
    have hW : p2.ep1.r.toNat < 256 := by omega
    have hX : p2.ep1.c.toNat < 256 := by omega
    have hY : c2.r.toNat < 256 := by omega
    have hZ : c2.c.toNat < 256 := by omega
    have heq2 : l1 * 2 ^ 60 + t.r.toNat * 2 ^ 24 + t.c.toNat * 2 ^ 16 +
        c1.r.toNat * 2 ^ 8 + c1.c.toNat
        = l2 * 2 ^ 60 + 2 ^ 56 + p2.ep0.r.toNat * 2 ^ 40 +
          p2.ep0.c.toNat * 2 ^ 32 + p2.ep1.r.toNat * 2 ^ 24 +
          p2.ep1.c.toNat * 2 ^ 16 + c2.r.toNat * 2 ^ 8 + c2.c.toNat := by
      rw [← flowFieldID_tile h1, ← flowFieldID_portal h2]
      exact heq
    exact absurd heq2 (fun hh =>
      idDigits_tile_portal_ne hA hB hC hD hU hV hW hX hY hZ hh)
  case portal.tile =>
    obtain ⟨hl, hcr0, hcr1, hcc0, hcc1, h0r0, h0r1, h0c0, h0c1, h1r0, h1r1, h1c0, h1c1⟩ := g1
    obtain ⟨hl2, hcr02, hcr12, hcc02, hcc12, htr02, htr12, htc02, htc12⟩ := g2
    have hA : p.ep0.r.toNat < 256 := by omega
    have hB : p.ep0.c.toNat < 256 := by omega
    have hC : p.ep1.r.toNat < 256 := by omega
    have hD : p.ep1.c.toNat < 256 := by omega
    have hE : c1.r.toNat < 256 := by omega
    have hF : c1.c.toNat < 256 := by omega
    have hU : t2t.r.toNat < 256 := by omega
    have hV : t2t.c.toNat < 256 := by omega
    have hW : c2.r.toNat < 256 := by omega
    have hX : c2.c.toNat < 256 := by omega
    have heq2 : l2 * 2 ^ 60 + t2t.r.toNat * 2 ^ 24 + t2t.c.toNat * 2 ^ 16 +
        c2.r.toNat * 2 ^ 8 + c2.c.toNat
        = l1 * 2 ^ 60 + 2 ^ 56 + p.ep0.r.toNat * 2 ^ 40 +
          p.ep0.c.toNat * 2 ^ 32 + p.ep1.r.toNat * 2 ^ 24 +
          p.ep1.c.toNat * 2 ^ 16 + c1.r.toNat * 2 ^ 8 + c1.c.toNat := by
      rw [← flowFieldID_tile h2, ← flowFieldID_portal h1]
      exact heq.symm
    exact absurd heq2 (fun hh =>
      idDigits_tile_portal_ne hU hV hW hX hA hB hC hD hE hF hh)
  case tile.enemies =>
    obtain ⟨hl, hcr0, hcr1, hcc0, hcc1, htr0, htr1, htc0, htc1⟩ := g1
    obtain ⟨hl2, hcr02, hcr12, hcc02, hcc12, hf02, hf12⟩ := g2
    have hA : t.r.toNat < 256 := by omega
    have hB : t.c.toNat < 256 := by omega
    have hC : c1.r.toNat < 256 := by omega
    have hD : c1.c.toNat < 256 := by omega
    have hG : e2.faction_id.toNat < 2 ^ 32 := by omega
    have hW : c2.r.toNat < 256 := by omega
    have hX : c2.c.toNat < 256 := by omega
    have heq2 : l1 * 2 ^ 60 + t.r.toNat * 2 ^ 24 + t.c.toNat * 2 ^ 16 +
        c1.r.toNat * 2 ^ 8 + c1.c.toNat
        = l2 * 2 ^ 60 + 3 * 2 ^ 56 + e2.faction_id.toNat * 2 ^ 24 +
          c2.r.toNat * 2 ^ 8 + c2.c.toNat := by
      rw [← flowFieldID_tile h1, ← flowFieldID_enemies h2]
      exact heq
    exact absurd heq2 (fun hh =>
      idDigits_tile_enemies_ne hA hB hC hD hG hW hX hh)
  case enemies.tile =>
    obtain ⟨hl, hcr0, hcr1, hcc0, hcc1, hf0, hf1⟩ := g1
    obtain ⟨hl2, hcr02, hcr12, hcc02, hcc12, htr02, htr12, htc02, htc12⟩ := g2
    have hA : t2t.r.toNat < 256 := by omega
    have hB : t2t.c.toNat < 256 := by omega
    have hC : c2.r.toNat < 256 := by omega
    have hD : c2.c.toNat < 256 := by omega
    have hG : e.faction_id.toNat < 2 ^ 32 := by omega
    have hW : c1.r.toNat < 256 := by omega
    have hX : c1.c.toNat < 256 := by omega
    have heq2 : l2 * 2 ^ 60 + t2t.r.toNat * 2 ^ 24 + t2t.c.toNat * 2 ^ 16 +
        c2.r.toNat * 2 ^ 8 + c2.c.toNat
        = l1 * 2 ^ 60 + 3 * 2 ^ 56 + e.faction_id.toNat * 2 ^ 24 +
          c1.r.toNat * 2 ^ 8 + c1.c.toNat := by
      rw [← flowFieldID_tile h2, ← flowFieldID_enemies h1]
      exact heq.symm
    exact absurd heq2 (fun hh =>
      idDigits_tile_enemies_ne hA hB hC hD hG hW hX hh)
  case portal.enemies =>
    obtain ⟨hl, hcr0, hcr1, hcc0, hcc1, h0r0, h0r1, h0c0, h0c1, h1r0, h1r1, h1c0, h1c1⟩ := g1
    obtain ⟨hl2, hcr02, hcr12, hcc02, hcc12, hf02, hf12⟩ := g2
    have hA : p.ep0.r.toNat < 256 := by omega
    have hB : p.ep0.c.toNat < 256 := by omega
    have hC : p.ep1.r.toNat < 256 := by omega
    have hD : p.ep1.c.toNat < 256 := by omega
    have hE : c1.r.toNat < 256 := by omega
    have hF : c1.c.toNat < 256 := by omega
    have hG : e2.faction_id.toNat < 2 ^ 32 := by omega
    have hW : c2.r.toNat < 256 := by omega
    have hX : c2.c.toNat < 256 := by omega
    have heq2 : l1 * 2 ^ 60 + 2 ^ 56 + p.ep0.r.toNat * 2 ^ 40 +
        p.ep0.c.toNat * 2 ^ 32 + p.ep1.r.toNat * 2 ^ 24 + p.ep1.c.toNat * 2 ^ 16 +
        c1.r.toNat * 2 ^ 8 + c1.c.toNat
        = l2 * 2 ^ 60 + 3 * 2 ^ 56 + e2.faction_id.toNat * 2 ^ 24 +
          c2.r.toNat * 2 ^ 8 + c2.c.toNat := by
      rw [← flowFieldID_portal h1, ← flowFieldID_enemies h2]
      exact heq
    exact absurd heq2 (fun hh =>
      idDigits_portal_enemies_ne hA hB hC hD hE hF hG hW hX hh)
  case enemies.portal =>
    obtain ⟨hl, hcr0, hcr1, hcc0, hcc1, hf0, hf1⟩ := g1
    obtain ⟨hl2, hcr02, hcr12, hcc02, hcc12, h0r02, h0r12, h0c02, h0c12, h1r02, h1r12, h1c02, h1c12⟩ := g2
    have hA : p2.ep0.r.toNat < 256 := by omega
    have hB : p2.ep0.c.toNat < 256 := by omega
    have hC : p2.ep1.r.toNat < 256 := by omega
    have hD : p2.ep1.c.toNat < 256 := by omega
    have hE : c2.r.toNat < 256 := by omega
    have hF : c2.c.toNat < 256 := by omega
    have hG : e.faction_id.toNat < 2 ^ 32 := by omega
    have hW : c1.r.toNat < 256 := by omega
    have hX : c1.c.toNat < 256 := by omega
    have heq2 : l2 * 2 ^ 60 + 2 ^ 56 + p2.ep0.r.toNat * 2 ^ 40 +
        p2.ep0.c.toNat * 2 ^ 32 + p2.ep1.r.toNat * 2 ^ 24 +
        p2.ep1.c.toNat * 2 ^ 16 + c2.r.toNat * 2 ^ 8 + c2.c.toNat
        = l1 * 2 ^ 60 + 3 * 2 ^ 56 + e.faction_id.toNat * 2 ^ 24 +
          c1.r.toNat * 2 ^ 8 + c1.c.toNat := by
      rw [← flowFieldID_portal h2, ← flowFieldID_enemies h1]
      exact heq.symm
    exact absurd heq2 (fun hh =>
      idDigits_portal_enemies_ne hA hB hC hD hE hF hG hW hX hh)

/-- Witness for C5's amended theorem at a concrete tile target. -/
theorem C5_flow_field_id_injective_witness :
    (5 : Nat) = 5 ∧ (⟨1, 2⟩ : Coord) = ⟨1, 2⟩ ∧
      sameEncodedTarget (.tile ⟨3, 4⟩) (.tile ⟨3, 4⟩) :=
  C5_flow_field_id_injective
    (by unfold idInputBounds; decide) (by unfold idInputBounds; decide)
    (by decide) (by decide) rfl

/-- C7: after `N_LOSFieldCreate` returns (the padding pass included), every
in-bounds tile in the 3x3 neighbourhood of a `wavefront_blocked` tile has
`visible == false`; with `x = t` this gives that no tile is both visible
and `wavefront_blocked`. -/
theorem C7_padding_forces_invisible {R C : Int} {chunk : NavChunk} {fid : Int}
    {getE : Int → Nat} {cc : Coord} {target : TileDesc} {prev : Option LOSField}
    {fuel : Nat} {t x : Coord}
    (ht : inBoundsB R C t = true) (hx : inBoundsB R C x = true)
    (hnr : (x.r - t.r).natAbs ≤ 1) (hnc : (x.c - t.c).natAbs ≤ 1)
    (hb : (losGet (N_LOSFieldCreate R C chunk fid getE cc target prev fuel)
      t).wavefront_blocked = true) :
    (losGet (N_LOSFieldCreate R C chunk fid getE cc target prev fuel) x).visible
      = false := by
  have hwfpre : gridWF R C (losRun R C chunk fid getE target cc fuel
      (losSeedState R C cc target prev
        { los := { chunk := cc, field := gridInit R C ⟨false, false⟩ },
          intf := gridInit R C none, queue := [] })).los.field :=
    losRun_wf fuel _ (losSeedState_wf gridWF_init)
  exact pad_wavefront_clears hwfpre ht hx hnr hnc hb

set_option maxRecDepth 100000 in
/-- Witness for C7 on `losCornerW` (4x4, impassable wall at (1,1) and
(2,1), target (0,0)): tile (1,1) ends `wavefront_blocked`, so its
neighbour (0,1) is invisible. -/
theorem C7_padding_forces_invisible_witness :
    (losGet losCornerW ⟨0, 1⟩).visible = false :=
  @C7_padding_forces_invisible 4 4 chunkCornerW FACTION_ID_NONE (fun _ => 0)
    ⟨0, 0⟩ ⟨0, 0, 0, 0⟩ none 200 ⟨1, 1⟩ ⟨0, 1⟩
    (by decide) (by decide) (by decide) (by decide) (by rfl)

end Permafrost
